import Mathlib

/-!
# Registry access layer of sanbootconf (`src/driver/registry.c`)

A shallow embedding of the registry helpers of the sanbootconf driver.

* NT status codes are signed 32-bit values (`LONG`), embedded as `Int`; the
  code only compares and forwards them.
* `ULONG` quantities are `Nat` reduced modulo `2 ^ 32` where the C code
  computes them.
* The kernel services used by the driver (`ExAllocatePoolWithTag`,
  `ZwQueryKey`, `ZwEnumerateKey`, `ZwQueryValueKey`, `ZwSetValueKey`) are the
  fields of a `Kernel` record acting on an arbitrary world type, so that every
  sequence of store responses and allocation outcomes is covered.  The record
  also names the build target, which fixes the size of a pointer.
* A wide string argument is the list of its code units; its memory is that
  list followed by the terminator.  Raw value data and the buffers handed back
  to callers are lists of bytes.
* Pool allocations and releases are recorded in a trace kept next to the
  world.
* A pointer is `none` (NULL) or a `Block`: the pool address, the number of
  bytes requested and the contents.  The contents of an information block are
  the fields the kernel reports; a field read through the pointer lies inside
  the block only when the block is long enough to hold it.
* Accesses outside an allocation and NULL dereferences are undefined
  behaviour in C; the embedding reports them as a `Fault`.
* `DbgPrint` logging has no effect on the results and is left out.
-/

namespace Sanbootconf

/-! ## Platform definitions (Windows DDK headers) -/

/-- NT status code: a signed 32-bit value. -/
abbrev NTSTATUS := Int

/-- Registry key handle. -/
abbrev HANDLE := Nat

/-- Sixteen-bit code unit of a wide string. -/
abbrev WCHAR := Nat

/-- Unsigned byte of a raw buffer. -/
abbrev UCHAR := Nat

/-- Platform macro `NT_SUCCESS(Status)`: `((NTSTATUS)(Status)) >= 0`. -/
def NT_SUCCESS (status : NTSTATUS) : Bool := decide (0 ≤ status)

def STATUS_SUCCESS : NTSTATUS := 0
/-- Value `0x40000000`, an informational (success-class) status. -/
def STATUS_OBJECT_NAME_EXISTS : NTSTATUS := 0x40000000
/-- Value `0x80000005` as a signed 32-bit integer. -/
def STATUS_BUFFER_OVERFLOW : NTSTATUS := 0x80000005 - 0x100000000
/-- Value `0x8000001A` as a signed 32-bit integer. -/
def STATUS_NO_MORE_ENTRIES : NTSTATUS := 0x8000001A - 0x100000000
/-- Value `0xC0000001` as a signed 32-bit integer. -/
def STATUS_UNSUCCESSFUL : NTSTATUS := 0xC0000001 - 0x100000000
/-- Value `0xC0000008` as a signed 32-bit integer. -/
def STATUS_INVALID_HANDLE : NTSTATUS := 0xC0000008 - 0x100000000
/-- Value `0xC0000022` as a signed 32-bit integer. -/
def STATUS_ACCESS_DENIED : NTSTATUS := 0xC0000022 - 0x100000000
/-- Value `0xC0000023` as a signed 32-bit integer. -/
def STATUS_BUFFER_TOO_SMALL : NTSTATUS := 0xC0000023 - 0x100000000
/-- Value `0xC0000034` as a signed 32-bit integer. -/
def STATUS_OBJECT_NAME_NOT_FOUND : NTSTATUS := 0xC0000034 - 0x100000000
/-- Value `0xC000009A` as a signed 32-bit integer. -/
def STATUS_INSUFFICIENT_RESOURCES : NTSTATUS := 0xC000009A - 0x100000000

def REG_SZ : Nat := 1
def REG_DWORD : Nat := 4
def REG_MULTI_SZ : Nat := 7

/-- Number of values of a `ULONG`. -/
def ULONG_RANGE : Nat := 2 ^ 32

/-- The C expression `sizeof ( WCHAR )`. -/
def sizeof_WCHAR : Nat := 2

/-- The targets the driver is built for. -/
inductive Arch where
  | x86
  | amd64
deriving DecidableEq, Repr

/-- The C expression `sizeof ( LPWSTR )`, the size of a pointer. -/
def sizeof_LPWSTR : Arch → Nat
  | Arch.x86 => 4
  | Arch.amd64 => 8

/-- The C expression `sizeof ( ULONG )`. -/
def sizeof_ULONG : Nat := 4

/-- Block `KEY_FULL_INFORMATION`; the driver reads only `SubKeys`. -/
structure KEY_FULL_INFORMATION where
  SubKeys : Nat
deriving DecidableEq, Repr

/-- Block `KEY_BASIC_INFORMATION`: `Name` holds the `NameLength` name bytes. -/
structure KEY_BASIC_INFORMATION where
  Name : List UCHAR
deriving DecidableEq, Repr

/-- Field `NameLength`: the length of the name in bytes, a `ULONG`. -/
def KEY_BASIC_INFORMATION.NameLength (ki : KEY_BASIC_INFORMATION) : Nat :=
  ki.Name.length

/-- Block `KEY_VALUE_PARTIAL_INFORMATION`: the type tag and the `DataLength`
data bytes. -/
structure KEY_VALUE_PARTIAL_INFORMATION where
  ValueType : Nat
  Data : List UCHAR
deriving DecidableEq, Repr

/-- Field `DataLength`: the length of the data in bytes, a `ULONG`. -/
def KEY_VALUE_PARTIAL_INFORMATION.DataLength
    (kvi : KEY_VALUE_PARTIAL_INFORMATION) : Nat :=
  kvi.Data.length

/-- Offset of `Class` in `KEY_FULL_INFORMATION`. -/
def KEY_FULL_INFORMATION_HEADER : Nat := 44

/-- Offset of `Name` in `KEY_BASIC_INFORMATION`. -/
def KEY_BASIC_INFORMATION_HEADER : Nat := 16

/-- Offset of `Data` in `KEY_VALUE_PARTIAL_INFORMATION`. -/
def KEY_VALUE_PARTIAL_INFORMATION_HEADER : Nat := 12

/-- Offset of the `ULONG` field `SubKeys` in `KEY_FULL_INFORMATION`, after
`LastWriteTime` (8 bytes), `TitleIndex`, `ClassOffset` and `ClassLength`. -/
def OFFSET_SubKeys : Nat := 20

/-- Offset of the `ULONG` field `NameLength` in `KEY_BASIC_INFORMATION`, after
`LastWriteTime` (8 bytes) and `TitleIndex`. -/
def OFFSET_NameLength : Nat := 12

/-- Offset of the `ULONG` field `DataLength` in
`KEY_VALUE_PARTIAL_INFORMATION`, after `TitleIndex` and `Type`. -/
def OFFSET_DataLength : Nat := 8

/-! ## Kernel services -/

/-- Answer of a sized query: the status, the contents of the caller's buffer
after the call, the value written to `ResultLength`, and the next world. -/
structure QueryResult (α W : Type) where
  status : NTSTATUS
  info : α
  resultLength : Nat
  world : W

/-- The platform: the build target and the kernel services the driver calls.
`buffer` tells whether the caller passed a buffer (`true`) or NULL (`false`);
`length` is the buffer length. -/
structure Kernel (W : Type) where
  arch : Arch
  ExAllocatePoolWithTag : W → (size : Nat) → Bool × W
  ZwQueryKey : W → HANDLE → (buffer : Bool) → (length : Nat) →
    QueryResult KEY_FULL_INFORMATION W
  ZwEnumerateKey : W → HANDLE → (index : Nat) → (buffer : Bool) →
    (length : Nat) → QueryResult KEY_BASIC_INFORMATION W
  ZwQueryValueKey : W → HANDLE → (value_name : List WCHAR) → (buffer : Bool) →
    (length : Nat) → QueryResult KEY_VALUE_PARTIAL_INFORMATION W
  ZwSetValueKey : W → HANDLE → (value_name : List WCHAR) → (type : Nat) →
    (data : List UCHAR) → (data_size : Nat) → NTSTATUS × W
  ZwOpenKey : W → (key_name : List WCHAR) → NTSTATUS × HANDLE × W
  ZwClose : W → HANDLE → NTSTATUS × W

/-- Pool activity: an allocation, a release, and the hand-over of a block to
the enumeration callback for the time of one call. -/
inductive PoolEvent where
  | alloc (addr size : Nat)
  | free (addr : Nat)
  | visit (addr : Nat)
deriving DecidableEq, Repr

/-- The world together with the pool trace. -/
structure Sys (W : Type) where
  world : W
  trace : List PoolEvent

/-- Undefined behaviour reached by the C code. -/
inductive Fault where
  | null_dereference
  | out_of_bounds
deriving DecidableEq, Repr

/-- An allocated pool block: address, requested size in bytes, contents. -/
structure Block (α : Type) where
  addr : Nat
  size : Nat
  val : α
deriving DecidableEq, Repr

/-- Pool allocation: the kernel decides whether it succeeds; a successful
allocation gets a fresh non-zero address and is logged. -/
def allocate {W : Type} (K : Kernel W) (s : Sys W) (size : Nat) :
    Option Nat × Sys W :=
  let r := K.ExAllocatePoolWithTag s.world size
  if r.1 then
    (some (s.trace.length + 1),
      ⟨r.2, s.trace ++ [PoolEvent.alloc (s.trace.length + 1) size]⟩)
  else
    (none, ⟨r.2, s.trace⟩)

/-- Pool release `ExFreePool`. -/
def ExFreePool {W : Type} (s : Sys W) (addr : Nat) : Sys W :=
  ⟨s.world, s.trace ++ [PoolEvent.free addr]⟩

/-- Log that the block at `addr` is handed to the enumeration callback. -/
def hand_over {W : Type} (s : Sys W) (addr : Nat) : Sys W :=
  ⟨s.world, s.trace ++ [PoolEvent.visit addr]⟩

/-- Result of a call: returned status, the out-parameter at return, the next
state. -/
structure Ret (β W : Type) where
  status : NTSTATUS
  out : β
  sys : Sys W

/-- Result of a call whose out-parameter is a pointer to a pool block. -/
abbrev Fetched (α W : Type) := Ret (Option (Block α)) W

/-! ## Readers (sized query protocol) -/

/-- Source function `reg_fetch_ki`. -/
def reg_fetch_ki {W : Type} (K : Kernel W) (reg_key : HANDLE) (s : Sys W) :
    Fetched KEY_FULL_INFORMATION W :=
  -- *ki = NULL
  let q1 := K.ZwQueryKey s.world reg_key false 0
  let ki_len := q1.resultLength % ULONG_RANGE
  if ¬ (q1.status = STATUS_SUCCESS ∨ q1.status = STATUS_BUFFER_OVERFLOW ∨
        q1.status = STATUS_BUFFER_TOO_SMALL) then
    ⟨q1.status, none, ⟨q1.world, s.trace⟩⟩
  else
    let a := allocate K ⟨q1.world, s.trace⟩ ki_len
    match a.1 with
    | none => ⟨STATUS_INSUFFICIENT_RESOURCES, none, a.2⟩
    | some addr =>
      let q2 := K.ZwQueryKey a.2.world reg_key true ki_len
      if ¬ NT_SUCCESS q2.status then
        ⟨q2.status, some ⟨addr, ki_len, q2.info⟩,
          ExFreePool ⟨q2.world, a.2.trace⟩ addr⟩
      else
        ⟨STATUS_SUCCESS, some ⟨addr, ki_len, q2.info⟩, ⟨q2.world, a.2.trace⟩⟩

/-- Source function `reg_fetch_subkey`. -/
def reg_fetch_subkey {W : Type} (K : Kernel W) (reg_key : HANDLE) (index : Nat)
    (s : Sys W) : Fetched KEY_BASIC_INFORMATION W :=
  -- *ki = NULL
  let q1 := K.ZwEnumerateKey s.world reg_key index false 0
  let ki_len := q1.resultLength % ULONG_RANGE
  if ¬ (q1.status = STATUS_SUCCESS ∨ q1.status = STATUS_BUFFER_OVERFLOW ∨
        q1.status = STATUS_BUFFER_TOO_SMALL) then
    ⟨q1.status, none, ⟨q1.world, s.trace⟩⟩
  else
    let a := allocate K ⟨q1.world, s.trace⟩ ki_len
    match a.1 with
    | none => ⟨STATUS_INSUFFICIENT_RESOURCES, none, a.2⟩
    | some addr =>
      let q2 := K.ZwEnumerateKey a.2.world reg_key index true ki_len
      if ¬ NT_SUCCESS q2.status then
        ⟨q2.status, some ⟨addr, ki_len, q2.info⟩,
          ExFreePool ⟨q2.world, a.2.trace⟩ addr⟩
      else
        ⟨STATUS_SUCCESS, some ⟨addr, ki_len, q2.info⟩, ⟨q2.world, a.2.trace⟩⟩

/-- Source function `reg_fetch_kvi`. -/
def reg_fetch_kvi {W : Type} (K : Kernel W) (reg_key : HANDLE)
    (value_name : List WCHAR) (s : Sys W) :
    Fetched KEY_VALUE_PARTIAL_INFORMATION W :=
  -- *kvi = NULL
  let q1 := K.ZwQueryValueKey s.world reg_key value_name false 0
  let kvi_len := q1.resultLength % ULONG_RANGE
  if ¬ (q1.status = STATUS_SUCCESS ∨ q1.status = STATUS_BUFFER_OVERFLOW ∨
        q1.status = STATUS_BUFFER_TOO_SMALL) then
    ⟨q1.status, none, ⟨q1.world, s.trace⟩⟩
  else
    let a := allocate K ⟨q1.world, s.trace⟩ kvi_len
    match a.1 with
    | none => ⟨STATUS_INSUFFICIENT_RESOURCES, none, a.2⟩
    | some addr =>
      let q2 := K.ZwQueryValueKey a.2.world reg_key value_name true kvi_len
      if ¬ NT_SUCCESS q2.status then
        ⟨q2.status, some ⟨addr, kvi_len, q2.info⟩,
          ExFreePool ⟨q2.world, a.2.trace⟩ addr⟩
      else
        ⟨STATUS_SUCCESS, some ⟨addr, kvi_len, q2.info⟩, ⟨q2.world, a.2.trace⟩⟩

/-! ## Raw memory helpers -/

/-- The two bytes of a code unit, little endian. -/
def wchar_bytes (c : WCHAR) : List UCHAR := [c % 256, c / 256 % 256]

/-- The bytes of a sequence of code units. -/
def wcs_bytes : List WCHAR → List UCHAR
  | [] => []
  | c :: rest => wchar_bytes c ++ wcs_bytes rest

/-- The characters of the C wide string starting with the given code units:
everything before the first zero unit. -/
def c_str (s : List WCHAR) : List WCHAR := s.takeWhile (fun c => c ≠ 0)

/-- Library function `wcslen`. -/
def wcslen (s : List WCHAR) : Nat := (c_str s).length

/-- The four bytes of a `ULONG`, little endian. -/
def ulong_bytes (v : Nat) : List UCHAR :=
  [v % 256, v / 256 % 256, v / 65536 % 256, v / 16777216 % 256]

/-- The `ULONG` held by four bytes, little endian. -/
def bytes_ulong : List UCHAR → Nat
  | [b0, b1, b2, b3] => b0 + 256 * b1 + 65536 * b2 + 16777216 * b3
  | _ => 0

/-- Kernel routine `RtlZeroMemory`: a buffer of `length` zero bytes. -/
def RtlZeroMemory (length : Nat) : List UCHAR := List.replicate length 0

/-- Kernel routine `RtlCopyMemory`: overwrite the first `length` bytes of
`destination` with the first `length` bytes of `source`; a fault when either
buffer is shorter than `length`. -/
def RtlCopyMemory (destination source : List UCHAR) (length : Nat) :
    Except Fault (List UCHAR) :=
  if length ≤ destination.length ∧ length ≤ source.length then
    Except.ok (source.take length ++ destination.drop length)
  else
    Except.error Fault.out_of_bounds

/-- Read the null-terminated wide string at the start of a byte buffer: the
code units before the first zero unit, or `none` when the buffer ends before a
complete zero unit is found. -/
def read_wstring : List UCHAR → Option (List WCHAR)
  | lo :: hi :: rest =>
    if lo + 256 * hi = 0 then some []
    else (read_wstring rest).map (fun s => (lo + 256 * hi) :: s)
  | _ => none

/-! ## Key information and subkey enumeration -/

/-- Source function `reg_fetch_subkeys`. -/
def reg_fetch_subkeys {W : Type} (K : Kernel W) (reg_key : HANDLE) (s : Sys W) :
    Except Fault (Ret Nat W) :=
  -- *subkeys = 0
  let f := reg_fetch_ki K reg_key s
  if ¬ NT_SUCCESS f.status then
    Except.ok ⟨f.status, 0, f.sys⟩
  else
    match f.out with
    | none => Except.error Fault.null_dereference
    | some ki =>
      -- ki->SubKeys is read inside the block of ki_len bytes
      if ki.size < OFFSET_SubKeys + sizeof_ULONG then
        Except.error Fault.out_of_bounds
      else
        Except.ok ⟨f.status, ki.val.SubKeys, ExFreePool f.sys ki.addr⟩

/-- Source function `reg_fetch_subkey_name`. -/
def reg_fetch_subkey_name {W : Type} (K : Kernel W) (reg_key : HANDLE)
    (index : Nat) (s : Sys W) : Except Fault (Fetched (List UCHAR) W) :=
  -- *name = NULL
  let f := reg_fetch_subkey K reg_key index s
  if ¬ NT_SUCCESS f.status then
    Except.ok ⟨f.status, none, f.sys⟩
  else
    match f.out with
    | none => Except.error Fault.null_dereference
    | some ki =>
      -- ki->NameLength is read inside the block of ki_len bytes
      if ki.size < OFFSET_NameLength + sizeof_ULONG then
        Except.error Fault.out_of_bounds
      else
        -- sizeof ( name[0] ) with LPWSTR *name: the size of a pointer
        let name_len :=
          (ki.val.NameLength + sizeof_LPWSTR K.arch) % ULONG_RANGE
        let a := allocate K f.sys name_len
        match a.1 with
        | none =>
          Except.ok ⟨STATUS_INSUFFICIENT_RESOURCES, none,
            ExFreePool a.2 ki.addr⟩
        | some addr =>
          -- the NameLength bytes of ki->Name are read inside the block
          if ki.size < KEY_BASIC_INFORMATION_HEADER + ki.val.NameLength then
            Except.error Fault.out_of_bounds
          else
            match RtlCopyMemory (RtlZeroMemory name_len) ki.val.Name
                ki.val.NameLength with
            | Except.error e => Except.error e
            | Except.ok buf =>
              Except.ok ⟨f.status, some ⟨addr, name_len, buf⟩,
                ExFreePool a.2 ki.addr⟩

/-- Result of an enumeration: the returned status, the names handed to the
callback in call order, the callback's opaque state, the next state. -/
structure EnumRet (σ W : Type) where
  status : NTSTATUS
  visits : List (Option (List UCHAR))
  opaque_state : σ
  sys : Sys W

/-- The `for` loop of `reg_enum_subkeys`, entered with `index < subkeys` for
`remaining = subkeys - index` more rounds.  At loop exit `name` is NULL. -/
def reg_enum_subkeys_loop {W σ : Type} (K : Kernel W)
    (callback : σ → Option (List UCHAR) → NTSTATUS × σ) (reg_key : HANDLE) :
    (remaining : Nat) → (index : Nat) → NTSTATUS → σ →
    List (Option (List UCHAR)) → Sys W → Except Fault (EnumRet σ W)
  | 0, _, status, opaque_state, visits, s =>
    Except.ok ⟨status, visits, opaque_state, s⟩
  | remaining + 1, index, _, opaque_state, visits, s =>
    match reg_fetch_subkey_name K reg_key index s with
    | Except.error e => Except.error e
    | Except.ok f =>
      if ¬ NT_SUCCESS f.status then
        Except.ok ⟨f.status, visits, opaque_state, f.sys⟩
      else
        let name := f.out
        let r := callback opaque_state (name.map Block.val)
        if ¬ NT_SUCCESS r.1 then
          match name with
          | some b =>
            Except.ok ⟨r.1, visits ++ [name.map Block.val], r.2,
              ExFreePool (hand_over f.sys b.addr) b.addr⟩
          | none =>
            Except.ok ⟨r.1, visits ++ [name.map Block.val], r.2, f.sys⟩
        else
          match name with
          | some b =>
            reg_enum_subkeys_loop K callback reg_key remaining (index + 1) r.1
              r.2 (visits ++ [name.map Block.val])
              (ExFreePool (hand_over f.sys b.addr) b.addr)
          | none => Except.error Fault.null_dereference

/-- Source function `reg_enum_subkeys`. -/
def reg_enum_subkeys {W σ : Type} (K : Kernel W) (reg_key : HANDLE)
    (callback : σ → Option (List UCHAR) → NTSTATUS × σ) (opaque_state : σ)
    (s : Sys W) : Except Fault (EnumRet σ W) :=
  match reg_fetch_subkeys K reg_key s with
  | Except.error e => Except.error e
  | Except.ok c =>
    if ¬ NT_SUCCESS c.status then
      Except.ok ⟨c.status, [], opaque_state, c.sys⟩
    else
      reg_enum_subkeys_loop K callback reg_key c.out 0 c.status
        opaque_state [] c.sys

/-! ## Typed value decoders -/

/-- Source function `reg_fetch_sz`. -/
def reg_fetch_sz {W : Type} (K : Kernel W) (reg_key : HANDLE)
    (value_name : List WCHAR) (s : Sys W) :
    Except Fault (Fetched (List UCHAR) W) :=
  -- *value = NULL
  let f := reg_fetch_kvi K reg_key value_name s
  if ¬ NT_SUCCESS f.status then
    Except.ok ⟨f.status, none, f.sys⟩
  else
    match f.out with
    | none => Except.error Fault.null_dereference
    | some kvi =>
      -- kvi->DataLength is read inside the block of kvi_len bytes
      if kvi.size < OFFSET_DataLength + sizeof_ULONG then
        Except.error Fault.out_of_bounds
      else
        -- sizeof ( value[0] ) with LPWSTR *value: the size of a pointer
        let value_len :=
          (kvi.val.DataLength + sizeof_LPWSTR K.arch) % ULONG_RANGE
        let a := allocate K f.sys value_len
        match a.1 with
        | none =>
          Except.ok ⟨STATUS_INSUFFICIENT_RESOURCES, none,
            ExFreePool a.2 kvi.addr⟩
        | some addr =>
          -- the DataLength bytes of kvi->Data are read inside the block
          if kvi.size <
              KEY_VALUE_PARTIAL_INFORMATION_HEADER + kvi.val.DataLength then
            Except.error Fault.out_of_bounds
          else
            match RtlCopyMemory (RtlZeroMemory value_len) kvi.val.Data
                kvi.val.DataLength with
            | Except.error e => Except.error e
            | Except.ok buf =>
              Except.ok ⟨f.status, some ⟨addr, value_len, buf⟩,
                ExFreePool a.2 kvi.addr⟩

/-- Source function `reg_fetch_dword`. -/
def reg_fetch_dword {W : Type} (K : Kernel W) (reg_key : HANDLE)
    (value_name : List WCHAR) (s : Sys W) : Except Fault (Ret Nat W) :=
  -- *value = 0
  let f := reg_fetch_kvi K reg_key value_name s
  if ¬ NT_SUCCESS f.status then
    Except.ok ⟨f.status, 0, f.sys⟩
  else
    match f.out with
    | none => Except.error Fault.null_dereference
    | some kvi =>
      -- kvi->DataLength is read inside the block of kvi_len bytes
      if kvi.size < OFFSET_DataLength + sizeof_ULONG then
        Except.error Fault.out_of_bounds
      else if kvi.val.DataLength ≠ sizeof_ULONG then
        Except.ok ⟨STATUS_UNSUCCESSFUL, 0, ExFreePool f.sys kvi.addr⟩
      -- the four bytes of kvi->Data are read inside the block
      else if kvi.size < KEY_VALUE_PARTIAL_INFORMATION_HEADER + sizeof_ULONG
          then
        Except.error Fault.out_of_bounds
      else
        match RtlCopyMemory (ulong_bytes 0) kvi.val.Data sizeof_ULONG with
        | Except.error e => Except.error e
        | Except.ok bytes =>
          Except.ok ⟨f.status, bytes_ulong bytes, ExFreePool f.sys kvi.addr⟩

/-- First loop of `reg_fetch_multi_sz`: step through the data one code unit
at a time while `string < Data + DataLength` and count the zero units.  With
an odd `DataLength` the last unit read straddles the end of the data: its
second byte is no data byte, and lies outside a block of header plus data
bytes. -/
def count_strings : List UCHAR → Except Fault Nat
  | [] => Except.ok 0
  | [_] => Except.error Fault.out_of_bounds
  | lo :: hi :: rest =>
    match count_strings rest with
    | Except.error e => Except.error e
    | Except.ok n => Except.ok (if lo + 256 * hi = 0 then n + 1 else n)

/-- Inner loop `while ( *string ) string++`: the argument is the memory from
`string` to the end of the allocation. -/
def skip_nonzero : List UCHAR → Except Fault (List UCHAR)
  | lo :: hi :: rest =>
    if lo + 256 * hi ≠ 0 then skip_nonzero rest
    else Except.ok (lo :: hi :: rest)
  | _ => Except.error Fault.out_of_bounds

/-- Inner loop `while ( ! *string ) string++`. -/
def skip_zero : List UCHAR → Except Fault (List UCHAR)
  | lo :: hi :: rest =>
    if lo + 256 * hi = 0 then skip_zero rest
    else Except.ok (lo :: hi :: rest)
  | _ => Except.error Fault.out_of_bounds

/-- Second loop of `reg_fetch_multi_sz`, `for ( i = 0 ; i < num_strings ;
i++ )`: `copy_len` is the size in bytes of the string area of the allocation
and `string` the memory from the current position to its end.  Yields the
slots filled, each the offset in code units of the position recorded. -/
def fill_slots (copy_len : Nat) :
    (rounds : Nat) → (string : List UCHAR) → Except Fault (List Nat)
  | 0, _ => Except.ok []
  | rounds + 1, string =>
    match skip_nonzero string with
    | Except.error e => Except.error e
    | Except.ok after_string =>
      match skip_zero after_string with
      | Except.error e => Except.error e
      | Except.ok next =>
        match fill_slots copy_len rounds next with
        | Except.error e => Except.error e
        | Except.ok slots =>
          Except.ok (((copy_len - string.length) / sizeof_WCHAR) :: slots)

/-- The allocation made by `reg_fetch_multi_sz`: the pointer slots (`none` is
NULL, `some k` points at code unit `k` of the string area) followed by the
string area. -/
structure MULTI_SZ where
  slots : List (Option Nat)
  strings : List UCHAR
deriving DecidableEq, Repr

/-- Source function `reg_fetch_multi_sz`. -/
def reg_fetch_multi_sz {W : Type} (K : Kernel W) (reg_key : HANDLE)
    (value_name : List WCHAR) (s : Sys W) :
    Except Fault (Fetched MULTI_SZ W) :=
  -- *values = NULL
  let f := reg_fetch_kvi K reg_key value_name s
  if ¬ NT_SUCCESS f.status then
    Except.ok ⟨f.status, none, f.sys⟩
  else
    match f.out with
    | none => Except.error Fault.null_dereference
    | some kvi =>
      -- kvi->DataLength and the DataLength bytes of kvi->Data are read
      -- inside the block of kvi_len bytes
      if kvi.size < OFFSET_DataLength + sizeof_ULONG ∨
          kvi.size <
            KEY_VALUE_PARTIAL_INFORMATION_HEADER + kvi.val.DataLength then
        Except.error Fault.out_of_bounds
      else
      match count_strings kvi.val.Data with
      | Except.error e => Except.error e
      | Except.ok counted =>
        let num_strings := counted % ULONG_RANGE
        -- sizeof ( values[0] ) and sizeof ( values[0][0] ) with
        -- LPWSTR **values: both the size of a pointer
        let slots_len := (num_strings + 1) * sizeof_LPWSTR K.arch
        let values_len :=
          (slots_len + kvi.val.DataLength + sizeof_LPWSTR K.arch)
            % ULONG_RANGE
        let a := allocate K f.sys values_len
        match a.1 with
        | none =>
          Except.ok ⟨STATUS_INSUFFICIENT_RESOURCES, none,
            ExFreePool a.2 kvi.addr⟩
        | some addr =>
          -- string = ( ( LPWSTR ) ( *values + num_strings + 1 ) )
          if values_len < slots_len then
            Except.error Fault.out_of_bounds
          else
            match RtlCopyMemory (RtlZeroMemory (values_len - slots_len))
                kvi.val.Data kvi.val.DataLength with
            | Except.error e => Except.error e
            | Except.ok copy =>
              match fill_slots copy.length num_strings copy with
              | Except.error e => Except.error e
              | Except.ok slots =>
                Except.ok ⟨f.status,
                  some ⟨addr, values_len, ⟨slots.map some ++ [none], copy⟩⟩,
                  ExFreePool a.2 kvi.addr⟩

/-! ## Typed value encoders -/

/-- Source function `reg_store_sz`. -/
def reg_store_sz {W : Type} (K : Kernel W) (reg_key : HANDLE)
    (value_name : List WCHAR) (value : List WCHAR) (s : Sys W) :
    Ret Unit W :=
  let value_len := (wcslen value + 1) * sizeof_WCHAR
  let r := K.ZwSetValueKey s.world reg_key value_name REG_SZ
    ((wcs_bytes (c_str value ++ [0])).take (value_len % ULONG_RANGE))
    (value_len % ULONG_RANGE)
  if ¬ NT_SUCCESS r.1 then
    ⟨r.1, (), ⟨r.2, s.trace⟩⟩
  else
    ⟨STATUS_SUCCESS, (), ⟨r.2, s.trace⟩⟩

/-- Source function `reg_store_dword`. -/
def reg_store_dword {W : Type} (K : Kernel W) (reg_key : HANDLE)
    (value_name : List WCHAR) (value : Nat) (s : Sys W) : Ret Unit W :=
  let r := K.ZwSetValueKey s.world reg_key value_name REG_DWORD
    (ulong_bytes (value % ULONG_RANGE)) sizeof_ULONG
  if ¬ NT_SUCCESS r.1 then
    ⟨r.1, (), ⟨r.2, s.trace⟩⟩
  else
    ⟨STATUS_SUCCESS, (), ⟨r.2, s.trace⟩⟩

/-- Limit `NTSTRSAFE_MAX_CCH` of the safe string library. -/
def NTSTRSAFE_MAX_CCH : Nat := 2147483647

/-- Library function `RtlStringCbCatW` applied to the destination that starts
at code unit `offset` of `buf` and is `cbDest` bytes long: append the source
string to the string found there, truncated to fit, and terminate it.  An
invalid destination leaves the buffer unchanged. -/
def RtlStringCbCatW (buf : List WCHAR) (offset cbDest : Nat)
    (pszSrc : List WCHAR) : List WCHAR :=
  let cchDest := cbDest / sizeof_WCHAR
  let dest := (buf.drop offset).take cchDest
  let cchDestLength := wcslen dest
  if cchDest = 0 ∨ NTSTRSAFE_MAX_CCH < cchDest ∨ dest.length ≤ cchDestLength then
    buf
  else
    let copied := (c_str pszSrc).take (cchDest - cchDestLength - 1)
    buf.take (offset + cchDestLength) ++ copied ++ [0] ++
      buf.drop (offset + cchDestLength + copied.length + 1)

/-- Second argument loop of `reg_store_multi_sz`: `value` is the offset of the
write position in code units. -/
def reg_store_multi_sz_copy :
    List (List WCHAR) → (values : List WCHAR) → (value : Nat) →
    (values_remaining : Nat) → List WCHAR
  | [], values, _, _ => values
  | string :: rest, values, value, values_remaining =>
    let values1 := RtlStringCbCatW values value values_remaining string
    let value_len := (wcslen (values1.drop value) + 1) * sizeof_WCHAR
    reg_store_multi_sz_copy rest values1 (value + value_len / sizeof_WCHAR)
      (values_remaining - value_len)

/-- First argument loop of `reg_store_multi_sz`: the total buffer length. -/
def reg_store_multi_sz_len : List (List WCHAR) → Nat
  | [] => sizeof_WCHAR
  | string :: rest =>
    reg_store_multi_sz_len rest + (wcslen string + 1) * sizeof_WCHAR

/-- Source function `reg_store_multi_sz`; `strings` are the variadic
arguments before the terminating NULL. -/
def reg_store_multi_sz {W : Type} (K : Kernel W) (reg_key : HANDLE)
    (value_name : List WCHAR) (strings : List (List WCHAR)) (s : Sys W) :
    Ret Unit W :=
  let values_len := reg_store_multi_sz_len strings
  let a := allocate K s values_len
  match a.1 with
  | none =>
    -- status = STATUS_UNSUCCESSFUL ; goto err_exallocatepoolwithtag
    ⟨STATUS_SUCCESS, (), a.2⟩
  | some addr =>
    let values := reg_store_multi_sz_copy strings
      (List.replicate (values_len / sizeof_WCHAR) 0) 0 values_len
    let r := K.ZwSetValueKey a.2.world reg_key value_name REG_MULTI_SZ
      ((wcs_bytes values).take (values_len % ULONG_RANGE))
      (values_len % ULONG_RANGE)
    -- err_zwsetvaluekey: ExFreePool ( values ) ; return STATUS_SUCCESS
    ⟨STATUS_SUCCESS, (), ExFreePool ⟨r.2, a.2.trace⟩ addr⟩

/-! ## Opening and closing a key -/

/-- The code unit of the separator `L"\\"`. -/
def BACKSLASH : WCHAR := 92

/-- First argument loop of `reg_open`: the total buffer length in bytes. -/
def reg_open_len : List (List WCHAR) → Nat
  | [] => 0
  | key_name_part :: rest =>
    (wcslen key_name_part + 1) * sizeof_WCHAR + reg_open_len rest

/-- Second argument loop of `reg_open`: `key_name` is the whole buffer, in
code units. -/
def reg_open_copy (key_name_len : Nat) :
    List (List WCHAR) → (key_name : List WCHAR) → List WCHAR
  | [], key_name => key_name
  | key_name_part :: rest, key_name =>
    let separated :=
      if key_name.headD 0 ≠ 0 then
        RtlStringCbCatW key_name 0 key_name_len [BACKSLASH]
      else key_name
    reg_open_copy key_name_len rest
      (RtlStringCbCatW separated 0 key_name_len key_name_part)

/-- Source function `reg_open`; `key_name_parts` are the variadic arguments
before the terminating NULL, and `garbage` is the content of the fresh pool
block, which the pool does not initialise.  `RtlInitUnicodeString` reads the
buffer up to its terminator; the name handed to `ZwOpenKey` is that string. -/
def reg_open {W : Type} (K : Kernel W) (key_name_parts : List (List WCHAR))
    (garbage : Nat → WCHAR) (s : Sys W) : Except Fault (Ret HANDLE W) :=
  -- *reg_key = NULL
  let key_name_len := reg_open_len key_name_parts
  let a := allocate K s key_name_len
  match a.1 with
  | none => Except.ok ⟨STATUS_UNSUCCESSFUL, 0, a.2⟩
  | some addr =>
    -- key_name[0] = 0
    if key_name_len < sizeof_WCHAR then
      Except.error Fault.out_of_bounds
    else
      let fresh := (List.range (key_name_len / sizeof_WCHAR)).map garbage
      let key_name := reg_open_copy key_name_len key_name_parts (fresh.set 0 0)
      if key_name.length ≤ wcslen key_name then
        Except.error Fault.out_of_bounds
      else
        let r := K.ZwOpenKey a.2.world (c_str key_name)
        Except.ok ⟨r.1, r.2.1, ExFreePool ⟨r.2.2, a.2.trace⟩ addr⟩

/-- Source function `reg_close`. -/
def reg_close {W : Type} (K : Kernel W) (reg_key : HANDLE) (s : Sys W) :
    Sys W :=
  ⟨(K.ZwClose s.world reg_key).2, s.trace⟩

/-! ## Layouts as the specification words them -/

/-- The multi-string layout `s1, 0, s2, 0, ..., sn, 0, 0` in code units. -/
def multi_sz_layout : List (List WCHAR) → List WCHAR
  | [] => [0]
  | string :: rest => string ++ [0] ++ multi_sz_layout rest

/-- The key path: the components in order, a backslash going before a
component whenever the path so far is not empty. -/
def key_path : List (List WCHAR) → (so_far : List WCHAR) → List WCHAR
  | [], so_far => so_far
  | part :: rest, so_far =>
    key_path rest ((if so_far = [] then [] else so_far ++ [BACKSLASH]) ++ part)

/-! ## Pool discipline -/

/-- Replay pool events over the list of live blocks.  An allocation adds its
block, a release removes it, a hand-over leaves it; the replay fails with
`none` when a block is allocated while live, or released or handed over while
not live. -/
def pool_live : List PoolEvent → (live : List Nat) → Option (List Nat)
  | [], live => some live
  | PoolEvent.alloc addr _ :: rest, live =>
    if addr ∈ live then none else pool_live rest (live ++ [addr])
  | PoolEvent.free addr :: rest, live =>
    if addr ∈ live then pool_live rest (live.erase addr) else none
  | PoolEvent.visit addr :: rest, live =>
    if addr ∈ live then pool_live rest live else none

/-- The block whose ownership a call transfers to its caller: the block of
the out-parameter when the call succeeded. -/
def owned_by_caller {α : Type} (status : NTSTATUS) (out : Option (Block α)) :
    List Nat :=
  if NT_SUCCESS status then (out.map Block.addr).toList else []

/-- The pool discipline of one call: the trace at return is the trace at
entry followed by events that, replayed from no live block, leave live exactly
the blocks in `kept`.  So every block allocated during the call is released
exactly once, except those in `kept`, which are not released, and no block is
released or handed over while not live. -/
def pool_balanced (before after : List PoolEvent) (kept : List Nat) : Prop :=
  ∃ events, after = before ++ events ∧ pool_live events [] = some kept

/-! ## Reference kernels -/

/-- A stored value: type tag and data bytes. -/
structure RegValue where
  type : Nat
  data : List UCHAR
deriving DecidableEq, Repr

/-- An open key: the names of its subkeys (as bytes) and its values by
name. -/
structure RegKey where
  subkeys : List (List UCHAR)
  values : List WCHAR → Option RegValue

/-- A registry: the open keys by handle. -/
abbrev Registry := HANDLE → Option RegKey

/-- Status of a sized query that needs `required` bytes, of which `header`
are the fixed part, when given `length` bytes. -/
def sized_status (header required length : Nat) : NTSTATUS :=
  if length < header then STATUS_BUFFER_TOO_SMALL
  else if length < required then STATUS_BUFFER_OVERFLOW
  else STATUS_SUCCESS

/-- A store that keeps what is written: reads return exactly the bytes last
written under a name, an absent value is reported as object-name-not-found,
an absent subkey index as no-more-entries, and pool allocations succeed.  Its
keys are open from the start; it opens no further key. -/
def registry_kernel (arch : Arch) : Kernel Registry where
  arch := arch
  ExAllocatePoolWithTag := fun w _ => (true, w)
  ZwQueryKey := fun w key _ length =>
    match w key with
    | none => ⟨STATUS_INVALID_HANDLE, ⟨0⟩, 0, w⟩
    | some k =>
      ⟨sized_status KEY_FULL_INFORMATION_HEADER KEY_FULL_INFORMATION_HEADER
          length, ⟨k.subkeys.length⟩, KEY_FULL_INFORMATION_HEADER, w⟩
  ZwEnumerateKey := fun w key index _ length =>
    match w key with
    | none => ⟨STATUS_INVALID_HANDLE, ⟨[]⟩, 0, w⟩
    | some k =>
      match k.subkeys.get? index with
      | none => ⟨STATUS_NO_MORE_ENTRIES, ⟨[]⟩, 0, w⟩
      | some name =>
        ⟨sized_status KEY_BASIC_INFORMATION_HEADER
            (KEY_BASIC_INFORMATION_HEADER + name.length) length,
          ⟨name⟩, KEY_BASIC_INFORMATION_HEADER + name.length, w⟩
  ZwQueryValueKey := fun w key value_name _ length =>
    match w key with
    | none => ⟨STATUS_INVALID_HANDLE, ⟨0, []⟩, 0, w⟩
    | some k =>
      match k.values value_name with
      | none => ⟨STATUS_OBJECT_NAME_NOT_FOUND, ⟨0, []⟩, 0, w⟩
      | some v =>
        ⟨sized_status KEY_VALUE_PARTIAL_INFORMATION_HEADER
            (KEY_VALUE_PARTIAL_INFORMATION_HEADER + v.data.length) length,
          ⟨v.type, v.data⟩,
          KEY_VALUE_PARTIAL_INFORMATION_HEADER + v.data.length, w⟩
  ZwSetValueKey := fun w key value_name type data data_size =>
    match w key with
    | none => (STATUS_INVALID_HANDLE, w)
    | some k =>
      (STATUS_SUCCESS, fun h =>
        if h = key then
          some ⟨k.subkeys, fun n =>
            if n = value_name then some ⟨type, data.take data_size⟩
            else k.values n⟩
        else w h)
  ZwOpenKey := fun w _ => (STATUS_OBJECT_NAME_NOT_FOUND, 0, w)
  ZwClose := fun w _ => (STATUS_SUCCESS, w)

/-- A kernel that answers every size query (no buffer) with `size_status` and
`size` bytes, every fetch (with buffer) with `fetch_status`, every write with
`set_status`, and lets allocations succeed or fail as `alloc_ok` says. -/
def scripted_kernel (arch : Arch) (size_status : NTSTATUS) (size : Nat)
    (fetch_status : NTSTATUS) (alloc_ok : Bool) (set_status : NTSTATUS)
    (data : List UCHAR) : Kernel Unit where
  arch := arch
  ExAllocatePoolWithTag := fun w _ => (alloc_ok, w)
  ZwQueryKey := fun w _ buffer _ =>
    ⟨if buffer then fetch_status else size_status, ⟨data.length⟩, size, w⟩
  ZwEnumerateKey := fun w _ _ buffer _ =>
    ⟨if buffer then fetch_status else size_status, ⟨data⟩, size, w⟩
  ZwQueryValueKey := fun w _ _ buffer _ =>
    ⟨if buffer then fetch_status else size_status, ⟨REG_SZ, data⟩, size, w⟩
  ZwSetValueKey := fun w _ _ _ _ _ => (set_status, w)
  ZwOpenKey := fun w _ => (STATUS_OBJECT_NAME_NOT_FOUND, 0, w)
  ZwClose := fun w _ => (STATUS_SUCCESS, w)

/-- The reference store with a stale subkey count: the key metadata reports
`count` subkeys whatever the key holds, as after the tree shrank. -/
def stale_count_kernel (arch : Arch) (count : Nat) : Kernel Registry :=
  { registry_kernel arch with
    ZwQueryKey := fun w _ _ length =>
      ⟨sized_status KEY_FULL_INFORMATION_HEADER KEY_FULL_INFORMATION_HEADER
          length, ⟨count⟩, KEY_FULL_INFORMATION_HEADER, w⟩ }

/-- A store write as the kernel receives it. -/
structure WriteRecord where
  key : HANDLE
  value_name : List WCHAR
  type : Nat
  data : List UCHAR
  data_size : Nat
deriving DecidableEq, Repr

/-- What a logging kernel has been asked: the sizes requested from the pool,
the store writes and the key names opened, each in call order. -/
structure KernelLog where
  requests : List Nat
  writes : List WriteRecord
  opened : List (List WCHAR)
deriving DecidableEq, Repr

/-- A kernel that logs its calls.  The first `budget` pool allocations
succeed and later ones fail; every value read delivers `blob` as a
multi-string value; writes and opens answer `status`. -/
def logging_kernel (arch : Arch) (budget : Nat) (blob : List UCHAR)
    (status : NTSTATUS) : Kernel KernelLog where
  arch := arch
  ExAllocatePoolWithTag := fun w size =>
    (decide (w.requests.length < budget),
      ⟨w.requests ++ [size], w.writes, w.opened⟩)
  ZwQueryKey := fun w _ buffer _ =>
    ⟨if buffer then STATUS_SUCCESS else STATUS_BUFFER_TOO_SMALL, ⟨0⟩,
      KEY_FULL_INFORMATION_HEADER, w⟩
  ZwEnumerateKey := fun w _ _ _ _ => ⟨STATUS_NO_MORE_ENTRIES, ⟨[]⟩, 0, w⟩
  ZwQueryValueKey := fun w _ _ buffer _ =>
    ⟨if buffer then STATUS_SUCCESS else STATUS_BUFFER_TOO_SMALL,
      ⟨REG_MULTI_SZ, blob⟩,
      KEY_VALUE_PARTIAL_INFORMATION_HEADER + blob.length, w⟩
  ZwSetValueKey := fun w key value_name type data data_size =>
    (status, ⟨w.requests,
      w.writes ++ [⟨key, value_name, type, data, data_size⟩], w.opened⟩)
  ZwOpenKey := fun w key_name =>
    (status, 1, ⟨w.requests, w.writes, w.opened ++ [key_name]⟩)
  ZwClose := fun w _ => (STATUS_SUCCESS, w)

/-- The empty log. -/
def no_calls : KernelLog := ⟨[], [], []⟩

/-- A visitor that counts its calls and always succeeds. -/
def count_calls (calls : Nat) (_name : Option (List UCHAR)) : NTSTATUS × Nat :=
  (STATUS_SUCCESS, calls + 1)

/-- A registry with one open key, handle 1, holding the given subkeys and no
values. -/
def one_key (subkeys : List (List UCHAR)) : Registry :=
  fun h => if h = 1 then some ⟨subkeys, fun _ => none⟩ else none

/-- The opaque state a visitor holds before its call number `i`, when it is
called on `names 0`, `names 1`, ... in turn. -/
def visitor_state {σ : Type}
    (callback : σ → Option (List UCHAR) → NTSTATUS × σ) (opaque_state : σ)
    (names : Nat → List UCHAR) : Nat → σ
  | 0 => opaque_state
  | i + 1 =>
    (callback (visitor_state callback opaque_state names i)
      (some (names i))).2

/-- The status a visitor returns from its call number `i`. -/
def visitor_status {σ : Type}
    (callback : σ → Option (List UCHAR) → NTSTATUS × σ) (opaque_state : σ)
    (names : Nat → List UCHAR) (i : Nat) : NTSTATUS :=
  (callback (visitor_state callback opaque_state names i) (some (names i))).1

/-- A visitor that counts its calls and fails on the second one. -/
def fail_on_second_call (calls : Nat) (_name : Option (List UCHAR)) :
    NTSTATUS × Nat :=
  (if calls = 1 then STATUS_UNSUCCESSFUL else STATUS_SUCCESS, calls + 1)

/-- Five subkey names `A` to `E`, as name bytes. -/
def five_children : List (List UCHAR) :=
  [[65, 0], [66, 0], [67, 0], [68, 0], [69, 0]]

/-- The name buffer `reg_fetch_subkey_name` builds on amd64 for child `i` of
`five_children`: the two name bytes and eight zero bytes. -/
def five_names (i : Nat) : List UCHAR := [65 + i, 0, 0, 0, 0, 0, 0, 0, 0, 0]

/-- The fault a run ended in, if any. -/
def fault_of {α : Type} : Except Fault α → Option Fault
  | Except.error e => some e
  | Except.ok _ => none

/-- The initial state over a world: nothing allocated yet. -/
def boot {W : Type} (w : W) : Sys W := ⟨w, []⟩

/-! ## Encoders and the status of the store write -/

theorem NT_SUCCESS_STATUS_SUCCESS : NT_SUCCESS STATUS_SUCCESS = true := by
  decide

/-- The string encoder forwards the status of a rejected store write and
reports plain success exactly when the write was accepted. -/
theorem reg_store_sz_status {W : Type} (K : Kernel W) (reg_key : HANDLE)
    (value_name value : List WCHAR) (s : Sys W) :
    let written := K.ZwSetValueKey s.world reg_key value_name REG_SZ
      ((wcs_bytes (c_str value ++ [0])).take
        ((wcslen value + 1) * sizeof_WCHAR % ULONG_RANGE))
      ((wcslen value + 1) * sizeof_WCHAR % ULONG_RANGE)
    (NT_SUCCESS written.1 = false →
      (reg_store_sz K reg_key value_name value s).status = written.1) ∧
    (NT_SUCCESS (reg_store_sz K reg_key value_name value s).status =
      NT_SUCCESS written.1) := by
  intro written
  by_cases h : NT_SUCCESS written.1 = true
  · simp [reg_store_sz, written, h] at *
    simp [h, NT_SUCCESS, STATUS_SUCCESS]
  · simp only [Bool.not_eq_true] at h
    simp [reg_store_sz, written, h] at *

/-- The integer encoder forwards the status of a rejected store write and
reports plain success exactly when the write was accepted. -/
theorem reg_store_dword_status {W : Type} (K : Kernel W) (reg_key : HANDLE)
    (value_name : List WCHAR) (value : Nat) (s : Sys W) :
    let written := K.ZwSetValueKey s.world reg_key value_name REG_DWORD
      (ulong_bytes (value % ULONG_RANGE)) sizeof_ULONG
    (NT_SUCCESS written.1 = false →
      (reg_store_dword K reg_key value_name value s).status = written.1) ∧
    (NT_SUCCESS (reg_store_dword K reg_key value_name value s).status =
      NT_SUCCESS written.1) := by
  intro written
  by_cases h : NT_SUCCESS written.1 = true
  · simp [reg_store_dword, written, h] at *
    simp [h, NT_SUCCESS, STATUS_SUCCESS]
  · simp only [Bool.not_eq_true] at h
    simp [reg_store_dword, written, h] at *

/-- The string-array encoder returns plain success whatever the allocation
and the store write did. -/
theorem reg_store_multi_sz_always_success {W : Type} (K : Kernel W)
    (reg_key : HANDLE) (value_name : List WCHAR) (strings : List (List WCHAR))
    (s : Sys W) :
    (reg_store_multi_sz K reg_key value_name strings s).status =
      STATUS_SUCCESS := by
  unfold reg_store_multi_sz
  simp only []
  split <;> rfl

/-- C1, at the failing input: the store write of `set_string_array` is
rejected with access-denied, a failure status, and `reg_store_multi_sz` still
returns success; the same happens when its buffer allocation fails. -/
theorem C1_reg_store_multi_sz_reports_success_on_rejected_write :
    NT_SUCCESS STATUS_ACCESS_DENIED = false ∧
    ((scripted_kernel Arch.amd64 STATUS_SUCCESS 0 STATUS_SUCCESS true STATUS_ACCESS_DENIED
        []).ZwSetValueKey () 1 [78] REG_MULTI_SZ [97, 0, 0, 0, 0, 0] 6).1 =
      STATUS_ACCESS_DENIED ∧
    (reg_store_multi_sz
      (scripted_kernel Arch.amd64 STATUS_SUCCESS 0 STATUS_SUCCESS true STATUS_ACCESS_DENIED
        [])
      1 [78] [[97]] (boot ())).status = STATUS_SUCCESS ∧
    (reg_store_multi_sz
      (scripted_kernel Arch.amd64 STATUS_SUCCESS 0 STATUS_SUCCESS false STATUS_SUCCESS
        [])
      1 [78] [[97]] (boot ())).status = STATUS_SUCCESS := by
  refine ⟨by decide, rfl, rfl, rfl⟩

/-! ## Round trip of string arrays -/

/-- C2, at the failing input: after `set_string_array(k, "N", "a", "bb", "")`
the store holds the units `a 0 b b 0 0 0`, and `string_array_value(k, "N")`
does not return: its second loop runs past the end of its allocation, on
amd64 and on x86.  The same happens for the single string `"a"`. -/
theorem C2_reg_fetch_multi_sz_walks_past_allocation :
    ((reg_fetch_kvi (registry_kernel Arch.amd64) 1 [78]
        (reg_store_multi_sz (registry_kernel Arch.amd64) 1 [78]
          [[97], [98, 98], []] (boot (one_key []))).sys).out.map
        (fun b => b.val.Data)) =
      some [97, 0, 0, 0, 98, 0, 98, 0, 0, 0, 0, 0, 0, 0] ∧
    fault_of (reg_fetch_multi_sz (registry_kernel Arch.amd64) 1 [78]
        (reg_store_multi_sz (registry_kernel Arch.amd64) 1 [78]
          [[97], [98, 98], []] (boot (one_key []))).sys)
      = some Fault.out_of_bounds ∧
    fault_of (reg_fetch_multi_sz (registry_kernel Arch.x86) 1 [78]
        (reg_store_multi_sz (registry_kernel Arch.x86) 1 [78]
          [[97], [98, 98], []] (boot (one_key []))).sys)
      = some Fault.out_of_bounds ∧
    fault_of (reg_fetch_multi_sz (registry_kernel Arch.amd64) 1 [78]
        (reg_store_multi_sz (registry_kernel Arch.amd64) 1 [78] [[97]]
          (boot (one_key []))).sys) = some Fault.out_of_bounds := by
  refine ⟨rfl, rfl, rfl, rfl⟩

/-! ## Out-parameters on failure -/

/-- A failed `reg_fetch_subkeys` leaves the count at zero. -/
theorem reg_fetch_subkeys_failure_zero {W : Type} (K : Kernel W)
    (reg_key : HANDLE) (s : Sys W) (r : Ret Nat W)
    (hr : reg_fetch_subkeys K reg_key s = Except.ok r)
    (hfail : NT_SUCCESS r.status = false) : r.out = 0 := by
  unfold reg_fetch_subkeys at hr
  simp only [] at hr
  split at hr
  · cases hr; rfl
  · rename_i hs
    simp only [Bool.not_eq_true, Bool.not_eq_false] at hs
    split at hr
    · cases hr
    · split at hr
      · cases hr
      · cases hr
        simp [hs] at hfail

/-- A failed `reg_fetch_subkey_name` leaves the name NULL. -/
theorem reg_fetch_subkey_name_failure_null {W : Type} (K : Kernel W)
    (reg_key : HANDLE) (index : Nat) (s : Sys W) (r : Fetched (List UCHAR) W)
    (hr : reg_fetch_subkey_name K reg_key index s = Except.ok r)
    (hfail : NT_SUCCESS r.status = false) : r.out = none := by
  unfold reg_fetch_subkey_name at hr
  simp only [] at hr
  split at hr
  · cases hr; rfl
  · rename_i hs
    simp only [Bool.not_eq_true, Bool.not_eq_false] at hs
    split at hr
    · cases hr
    · split at hr
      · cases hr
      · split at hr
        · cases hr; rfl
        · split at hr
          · cases hr
          · split at hr
            · cases hr
            · cases hr
              simp [hs] at hfail

/-- A failed `reg_fetch_sz` leaves the string NULL. -/
theorem reg_fetch_sz_failure_null {W : Type} (K : Kernel W)
    (reg_key : HANDLE) (value_name : List WCHAR) (s : Sys W)
    (r : Fetched (List UCHAR) W)
    (hr : reg_fetch_sz K reg_key value_name s = Except.ok r)
    (hfail : NT_SUCCESS r.status = false) : r.out = none := by
  unfold reg_fetch_sz at hr
  simp only [] at hr
  split at hr
  · cases hr; rfl
  · rename_i hs
    simp only [Bool.not_eq_true, Bool.not_eq_false] at hs
    split at hr
    · cases hr
    · split at hr
      · cases hr
      · split at hr
        · cases hr; rfl
        · split at hr
          · cases hr
          · split at hr
            · cases hr
            · cases hr
              simp [hs] at hfail

/-- A failed `reg_fetch_multi_sz` leaves the array NULL. -/
theorem reg_fetch_multi_sz_failure_null {W : Type} (K : Kernel W)
    (reg_key : HANDLE) (value_name : List WCHAR) (s : Sys W)
    (r : Fetched MULTI_SZ W)
    (hr : reg_fetch_multi_sz K reg_key value_name s = Except.ok r)
    (hfail : NT_SUCCESS r.status = false) : r.out = none := by
  unfold reg_fetch_multi_sz at hr
  simp only [] at hr
  split at hr
  · cases hr; rfl
  · rename_i hs
    simp only [Bool.not_eq_true, Bool.not_eq_false] at hs
    split at hr
    · cases hr
    · split at hr
      · cases hr
      · split at hr
        · cases hr
        · split at hr
          · cases hr; rfl
          · split at hr
            · cases hr
            · split at hr
              · cases hr
              · split at hr
                · cases hr
                · cases hr
                  simp [hs] at hfail

/-- A failed `reg_fetch_dword` leaves the value at zero. -/
theorem reg_fetch_dword_failure_zero {W : Type} (K : Kernel W)
    (reg_key : HANDLE) (value_name : List WCHAR) (s : Sys W) (r : Ret Nat W)
    (hr : reg_fetch_dword K reg_key value_name s = Except.ok r)
    (hfail : NT_SUCCESS r.status = false) : r.out = 0 := by
  unfold reg_fetch_dword at hr
  simp only [] at hr
  split at hr
  · cases hr; rfl
  · rename_i hs
    simp only [Bool.not_eq_true, Bool.not_eq_false] at hs
    split at hr
    · cases hr
    · split at hr
      · cases hr
      · split at hr
        · cases hr; rfl
        · split at hr
          · cases hr
          · split at hr
            · cases hr
            · cases hr
              simp [hs] at hfail

/-- C3, at the failing input: the size query answers buffer-too-small, the
allocation succeeds and the fetch-phase call is rejected with access-denied.
Each of the three readers returns that failure status, has released the
block, and leaves its out-parameter pointing at the released block instead of
NULL. -/
theorem C3_readers_leave_released_pointer_on_fetch_failure :
    NT_SUCCESS STATUS_ACCESS_DENIED = false ∧
    (let r := reg_fetch_ki
        (scripted_kernel Arch.amd64 STATUS_BUFFER_TOO_SMALL 44 STATUS_ACCESS_DENIED true
          STATUS_SUCCESS []) 1 (boot ())
     r.status = STATUS_ACCESS_DENIED ∧ r.out.map Block.addr = some 1 ∧
       r.sys.trace = [PoolEvent.alloc 1 44, PoolEvent.free 1]) ∧
    (let r := reg_fetch_subkey
        (scripted_kernel Arch.amd64 STATUS_BUFFER_TOO_SMALL 44 STATUS_ACCESS_DENIED true
          STATUS_SUCCESS []) 1 0 (boot ())
     r.status = STATUS_ACCESS_DENIED ∧ r.out.map Block.addr = some 1 ∧
       r.sys.trace = [PoolEvent.alloc 1 44, PoolEvent.free 1]) ∧
    (let r := reg_fetch_kvi
        (scripted_kernel Arch.amd64 STATUS_BUFFER_TOO_SMALL 44 STATUS_ACCESS_DENIED true
          STATUS_SUCCESS []) 1 [78] (boot ())
     r.status = STATUS_ACCESS_DENIED ∧ r.out.map Block.addr = some 1 ∧
       r.sys.trace = [PoolEvent.alloc 1 44, PoolEvent.free 1]) := by
  refine ⟨by decide, ⟨rfl, rfl, rfl⟩, ⟨rfl, rfl, rfl⟩, ⟨rfl, rfl, rfl⟩⟩

/-! ## Enumeration stops at the first visitor failure -/

/-- The loop of `reg_enum_subkeys`, entered at `index` with the visitor in the
state it has before call `index`, when every name resolution succeeds and the
visitor first fails at call `index + d`: the loop visits the names of
`index`, ..., `index + d` and returns the status of that last call. -/
theorem reg_enum_subkeys_loop_abort {W σ : Type} (K : Kernel W)
    (reg_key : HANDLE) (callback : σ → Option (List UCHAR) → NTSTATUS × σ)
    (opaque_state : σ) (names : Nat → List UCHAR) (n : Nat)
    (Inv : W → Prop)
    (hnames : ∀ i, i < n → ∀ s : Sys W, Inv s.world →
      ∃ f b, reg_fetch_subkey_name K reg_key i s = Except.ok f ∧
        NT_SUCCESS f.status = true ∧ f.out = some b ∧ b.val = names i ∧
        Inv f.sys.world) :
    ∀ (d index remaining : Nat) (status : NTSTATUS)
      (visits : List (Option (List UCHAR))) (s : Sys W),
      index + d < n → d < remaining → Inv s.world →
      (∀ i, index ≤ i → i < index + d →
        NT_SUCCESS (visitor_status callback opaque_state names i) = true) →
      NT_SUCCESS (visitor_status callback opaque_state names (index + d))
        = false →
      ∃ r, reg_enum_subkeys_loop K callback reg_key remaining index status
          (visitor_state callback opaque_state names index) visits s
          = Except.ok r ∧
        r.visits = visits ++
          (List.range' index (d + 1)).map (fun i => some (names i)) ∧
        r.status = visitor_status callback opaque_state names (index + d) ∧
        r.opaque_state =
          visitor_state callback opaque_state names (index + d + 1) := by
  intro d
  induction d with
  | zero =>
    intro index remaining status visits s hlt hrem hinv _ hfail
    obtain ⟨rem, rfl⟩ : ∃ rem, remaining = rem + 1 :=
      ⟨remaining - 1, by omega⟩
    obtain ⟨f, b, hf, hfs, hout, hval, _⟩ := hnames index (by omega) s hinv
    simp only [Nat.add_zero] at hfail ⊢
    have hcall : NT_SUCCESS (callback
        (visitor_state callback opaque_state names index)
        (some (names index))).1 = false := hfail
    simp only [reg_enum_subkeys_loop, hf, hfs, hout, Option.map, hval, hcall,
      not_true_eq_false, if_false, Bool.false_eq_true, not_false_eq_true,
      if_true]
    exact ⟨_, rfl, by simp [List.range'], rfl, rfl⟩
  | succ d ih =>
    intro index remaining status visits s hlt hrem hinv hok hfail
    obtain ⟨rem, rfl⟩ : ∃ rem, remaining = rem + 1 :=
      ⟨remaining - 1, by omega⟩
    obtain ⟨f, b, hf, hfs, hout, hval, hinv1⟩ :=
      hnames index (by omega) s hinv
    have hcall : NT_SUCCESS (callback
        (visitor_state callback opaque_state names index)
        (some (names index))).1 = true := hok index (le_refl _) (by omega)
    have hrec := ih (index + 1) rem
      (callback (visitor_state callback opaque_state names index)
        (some (names index))).1
      (visits ++ [some (names index)])
      (ExFreePool (hand_over f.sys b.addr) b.addr)
      (by omega) (by omega) hinv1
      (fun i h1 h2 => hok i (by omega) (by omega))
      (by rw [show index + 1 + d = index + (d + 1) by omega]; exact hfail)
    obtain ⟨r, hr, hv, hst, hop⟩ := hrec
    refine ⟨r, ?_, ?_, ?_, ?_⟩
    · simp only [reg_enum_subkeys_loop, hf, hfs, hout, Option.map, hval, hcall,
        not_true_eq_false, if_false]
      exact hr
    · rw [hv, List.range'_succ index (d + 1)]
      simp
    · rw [hst, show index + 1 + d = index + (d + 1) by omega]
    · rw [hop, show index + 1 + d + 1 = index + (d + 1) + 1 by omega]

/-- C4: for a key whose subkey count is read as `n`, whose name resolutions
all succeed (index `i` yielding `names i`), and a visitor whose first failing
call is call `j < n`, `reg_enum_subkeys` returns, has invoked the visitor
exactly on the names of indices `0, ..., j` in ascending order (so `j + 1`
times and never for a later index), and returns exactly the status the
visitor returned at index `j`. -/
theorem C4_first_visitor_failure_aborts_enumeration {W σ : Type}
    (K : Kernel W) (reg_key : HANDLE)
    (callback : σ → Option (List UCHAR) → NTSTATUS × σ) (opaque_state : σ)
    (names : Nat → List UCHAR) (n j : Nat) (Inv : W → Prop) (s : Sys W)
    (hcount : ∃ c, reg_fetch_subkeys K reg_key s = Except.ok c ∧
      NT_SUCCESS c.status = true ∧ c.out = n ∧ Inv c.sys.world)
    (hnames : ∀ i, i < n → ∀ s1 : Sys W, Inv s1.world →
      ∃ f b, reg_fetch_subkey_name K reg_key i s1 = Except.ok f ∧
        NT_SUCCESS f.status = true ∧ f.out = some b ∧ b.val = names i ∧
        Inv f.sys.world)
    (hj : j < n)
    (hok : ∀ i, i < j →
      NT_SUCCESS (visitor_status callback opaque_state names i) = true)
    (hfail : NT_SUCCESS (visitor_status callback opaque_state names j)
      = false) :
    ∃ r, reg_enum_subkeys K reg_key callback opaque_state s = Except.ok r ∧
      r.visits = (List.range (j + 1)).map (fun i => some (names i)) ∧
      r.visits.length = j + 1 ∧
      r.status = visitor_status callback opaque_state names j := by
  obtain ⟨c, hc, hcs, hcn, hinv⟩ := hcount
  have hloop := reg_enum_subkeys_loop_abort K reg_key callback opaque_state
    names n Inv hnames j 0 n c.status [] c.sys (by omega) (by omega) hinv
    (fun i _ h2 => hok i (by omega)) (by simpa using hfail)
  obtain ⟨r, hr, hv, hst, _⟩ := hloop
  refine ⟨r, ?_, ?_, ?_, ?_⟩
  · simp only [reg_enum_subkeys, hc, hcs, hcn, not_true_eq_false, if_false]
    exact hr
  · rw [hv, List.range_eq_range']
    simp
  · rw [hv]
    simp
  · simpa using hst

/-- C4 at the witness: a key with the five children `A` to `E` and a visitor
that fails on its second call; exactly two visits, on `A` and `B`, and the
visitor's failure status is returned. -/
theorem C4_first_visitor_failure_aborts_enumeration_witness :
    ∃ r, reg_enum_subkeys (registry_kernel Arch.amd64) 1 fail_on_second_call 0
        (boot (one_key five_children)) = Except.ok r ∧
      r.visits = [some [65, 0, 0, 0, 0, 0, 0, 0, 0, 0],
        some [66, 0, 0, 0, 0, 0, 0, 0, 0, 0]] ∧
      r.visits.length = 2 ∧
      r.status = STATUS_UNSUCCESSFUL :=
  C4_first_visitor_failure_aborts_enumeration (registry_kernel Arch.amd64) 1
    fail_on_second_call 0 five_names 5 1
    (fun w => w = one_key five_children) (boot (one_key five_children))
    ⟨_, rfl, rfl, rfl, rfl⟩
    (by
      rintro i hi ⟨w, t⟩ hw
      simp only at hw
      subst hw
      interval_cases i <;> exact ⟨_, _, rfl, rfl, rfl, rfl, rfl⟩)
    (by decide)
    (by
      intro i hi
      interval_cases i
      rfl)
    rfl

/-! ## Decoding a 32-bit integer -/

/-- A success-class status of `reg_fetch_kvi` that comes with a block is plain
success. -/
theorem reg_fetch_kvi_success_status {W : Type} (K : Kernel W)
    (reg_key : HANDLE) (value_name : List WCHAR) (s : Sys W)
    (kvi : Block KEY_VALUE_PARTIAL_INFORMATION)
    (hst : NT_SUCCESS (reg_fetch_kvi K reg_key value_name s).status = true)
    (hout : (reg_fetch_kvi K reg_key value_name s).out = some kvi) :
    (reg_fetch_kvi K reg_key value_name s).status = STATUS_SUCCESS := by
  unfold reg_fetch_kvi at hst hout ⊢
  simp only [] at hst hout ⊢
  generalize K.ZwQueryValueKey s.world reg_key value_name false 0 = q1
    at hst hout ⊢
  generalize allocate K _ _ = a at hst hout ⊢
  obtain ⟨a1, a2⟩ := a
  by_cases h1 : q1.status = STATUS_SUCCESS ∨ q1.status = STATUS_BUFFER_OVERFLOW ∨
      q1.status = STATUS_BUFFER_TOO_SMALL
  · simp only [h1, not_true_eq_false, if_false] at hst hout ⊢
    cases a1 with
    | none => simp at hout
    | some addr =>
      simp only [] at hst hout ⊢
      generalize K.ZwQueryValueKey a2.world reg_key value_name true _ = q2
        at hst hout ⊢
      by_cases h2 : NT_SUCCESS q2.status = true
      · simp [h2]
      · simp [h2] at hst
  · simp [h1] at hout

/-- Copying the four data bytes of a four-byte blob into a `ULONG` yields
those bytes. -/
theorem RtlCopyMemory_ulong (data : List UCHAR) (h : data.length = 4) :
    RtlCopyMemory (ulong_bytes 0) data sizeof_ULONG = Except.ok data := by
  unfold RtlCopyMemory
  have h1 : sizeof_ULONG = 4 := rfl
  have h2 : (ulong_bytes 0).length = 4 := rfl
  rw [if_pos (by rw [h1, h2, h]; exact ⟨le_refl _, le_refl _⟩)]
  rw [h1, ← h, List.take_length]
  have h3 : List.drop data.length (ulong_bytes 0) = [] := by
    rw [h]; rfl
  rw [h3, List.append_nil]

/-- A fetch that succeeds into a block too short for the fields read: with a
size query answering success and size 0, `reg_fetch_dword` reads
`kvi->DataLength` outside its 0-byte block; with a 12-byte block and four data
bytes reported, it reads `kvi->Data` outside the block. -/
theorem reg_fetch_dword_short_block :
    fault_of (reg_fetch_dword
        (scripted_kernel Arch.amd64 STATUS_SUCCESS 0 STATUS_SUCCESS true
          STATUS_SUCCESS [42, 0, 0, 0]) 1 [78] (boot ()))
      = some Fault.out_of_bounds ∧
    fault_of (reg_fetch_dword
        (scripted_kernel Arch.amd64 STATUS_BUFFER_TOO_SMALL 12 STATUS_SUCCESS
          true STATUS_SUCCESS [42, 0, 0, 0]) 1 [78] (boot ()))
      = some Fault.out_of_bounds := by
  refine ⟨rfl, rfl⟩

/-- C5: for every successfully fetched value blob that fits the buffer it was
fetched into, `reg_fetch_dword` returns, and it succeeds if and only if the
blob's data length is exactly 4 bytes; when it is 4 the status is success and
the output is the 32-bit integer formed by the 4 data bytes; otherwise the
status is the size-mismatch status `STATUS_UNSUCCESSFUL` and the output is
0. -/
theorem C5_reg_fetch_dword_size_check {W : Type} (K : Kernel W)
    (reg_key : HANDLE) (value_name : List WCHAR) (s : Sys W)
    (kvi : Block KEY_VALUE_PARTIAL_INFORMATION)
    (hst : NT_SUCCESS (reg_fetch_kvi K reg_key value_name s).status = true)
    (hout : (reg_fetch_kvi K reg_key value_name s).out = some kvi)
    (hfit : KEY_VALUE_PARTIAL_INFORMATION_HEADER + kvi.val.DataLength
      ≤ kvi.size) :
    ∃ r, reg_fetch_dword K reg_key value_name s = Except.ok r ∧
      (NT_SUCCESS r.status = true ↔ kvi.val.DataLength = 4) ∧
      (kvi.val.DataLength = 4 →
        r.status = STATUS_SUCCESS ∧ r.out = bytes_ulong kvi.val.Data) ∧
      (kvi.val.DataLength ≠ 4 →
        r.status = STATUS_UNSUCCESSFUL ∧ r.out = 0) := by
  have hsucc := reg_fetch_kvi_success_status K reg_key value_name s kvi hst hout
  have hfield : ¬ kvi.size < OFFSET_DataLength + sizeof_ULONG := by
    simp only [KEY_VALUE_PARTIAL_INFORMATION_HEADER] at hfit
    simp only [OFFSET_DataLength, sizeof_ULONG]
    omega
  by_cases hlen : kvi.val.DataLength = 4
  · have hcopy := RtlCopyMemory_ulong kvi.val.Data hlen
    have hdata : ¬ kvi.size <
        KEY_VALUE_PARTIAL_INFORMATION_HEADER + sizeof_ULONG := by
      rw [hlen] at hfit
      simp only [sizeof_ULONG]
      omega
    refine ⟨⟨STATUS_SUCCESS, bytes_ulong kvi.val.Data,
      ExFreePool (reg_fetch_kvi K reg_key value_name s).sys kvi.addr⟩,
      ?_, ?_, ?_, ?_⟩
    · have hlen2 : kvi.val.DataLength = sizeof_ULONG := hlen
      simp only [reg_fetch_dword, hst, hout, hlen2, hcopy, hsucc, hfield,
        hdata, NT_SUCCESS_STATUS_SUCCESS, not_true_eq_false, if_false, ne_eq]
    · simp [hlen, NT_SUCCESS, STATUS_SUCCESS]
    · intro _; exact ⟨rfl, rfl⟩
    · intro h; exact absurd hlen h
  · refine ⟨⟨STATUS_UNSUCCESSFUL, 0,
      ExFreePool (reg_fetch_kvi K reg_key value_name s).sys kvi.addr⟩,
      ?_, ?_, ?_, ?_⟩
    · have hlen2 : kvi.val.DataLength ≠ sizeof_ULONG := hlen
      simp only [reg_fetch_dword, hst, hout, hlen2, hfield,
        not_true_eq_false, if_false, ne_eq, not_false_eq_true, if_true]
    · simp [hlen, NT_SUCCESS, STATUS_UNSUCCESSFUL]
    · intro h; exact absurd h hlen
    · intro _; exact ⟨rfl, rfl⟩

/-- C5 at the witness: a value of the 3 bytes `1 2 3` is fetched
successfully into a block of 15 bytes, and decoding it as a 32-bit integer
fails with `STATUS_UNSUCCESSFUL` and output 0. -/
theorem C5_reg_fetch_dword_size_check_witness :
    ∃ r, reg_fetch_dword
        (scripted_kernel Arch.amd64 STATUS_BUFFER_TOO_SMALL 15 STATUS_SUCCESS
          true STATUS_SUCCESS [1, 2, 3]) 1 [78] (boot ()) = Except.ok r ∧
      (NT_SUCCESS r.status = true ↔ 3 = 4) ∧
      (3 = 4 → r.status = STATUS_SUCCESS ∧ r.out = bytes_ulong [1, 2, 3]) ∧
      (3 ≠ 4 → r.status = STATUS_UNSUCCESSFUL ∧ r.out = 0) :=
  C5_reg_fetch_dword_size_check
    (scripted_kernel Arch.amd64 STATUS_BUFFER_TOO_SMALL 15 STATUS_SUCCESS true
      STATUS_SUCCESS [1, 2, 3]) 1 [78] (boot ())
    (Block.mk 1 15 (KEY_VALUE_PARTIAL_INFORMATION.mk REG_SZ [1, 2, 3]))
    rfl rfl (by decide)

/-! ## Termination of the buffer built by `reg_fetch_sz` -/

/-- Copying all the data into a zeroed buffer that is `n` bytes longer leaves
the data followed by `n` zero bytes. -/
theorem RtlCopyMemory_padded (data : List UCHAR) (n : Nat) :
    RtlCopyMemory (RtlZeroMemory (data.length + n)) data data.length =
      Except.ok (data ++ List.replicate n 0) := by
  unfold RtlCopyMemory RtlZeroMemory
  rw [if_pos (by simp)]
  simp

/-- A buffer that continues with at least three zero bytes after the data
holds a complete zero code unit at an even offset, whatever the data and its
length. -/
theorem read_wstring_padded :
    ∀ data tail : List UCHAR,
      (read_wstring (data ++ 0 :: 0 :: 0 :: tail)).isSome = true
  | [], _ => rfl
  | [b], tail => by
    by_cases hb : b = 0
    · subst hb; rfl
    · have h0 : b + 256 * 0 ≠ 0 := by simpa using hb
      simp only [List.singleton_append, read_wstring, if_neg h0]
      cases tail <;> rfl
  | lo :: hi :: rest, tail => by
    have ih := read_wstring_padded rest tail
    simp only [List.cons_append, read_wstring]
    split_ifs
    · rfl
    · simpa using ih

/-- The block a successful `reg_fetch_kvi` hands out has a `ULONG` size. -/
theorem reg_fetch_kvi_block_size {W : Type} (K : Kernel W) (reg_key : HANDLE)
    (value_name : List WCHAR) (s : Sys W)
    (kvi : Block KEY_VALUE_PARTIAL_INFORMATION)
    (hout : (reg_fetch_kvi K reg_key value_name s).out = some kvi) :
    kvi.size < ULONG_RANGE := by
  unfold reg_fetch_kvi at hout
  simp only [] at hout
  generalize K.ZwQueryValueKey s.world reg_key value_name false 0 = q1 at hout
  generalize allocate K _ _ = a at hout
  obtain ⟨a1, a2⟩ := a
  have hlt : q1.resultLength % ULONG_RANGE < ULONG_RANGE :=
    Nat.mod_lt _ (by decide)
  by_cases h1 : q1.status = STATUS_SUCCESS ∨ q1.status = STATUS_BUFFER_OVERFLOW ∨
      q1.status = STATUS_BUFFER_TOO_SMALL
  · simp only [h1, not_true_eq_false, if_false] at hout
    cases a1 with
    | none => simp at hout
    | some addr =>
      simp only [] at hout
      generalize K.ZwQueryValueKey a2.world reg_key value_name true _ = q2
        at hout
      by_cases h2 : NT_SUCCESS q2.status = true
      · simp [h2] at hout
        rw [← hout]; exact hlt
      · simp [h2] at hout
        rw [← hout]; exact hlt
  · simp [h1] at hout

/-- The pointer size is 4 or 8. -/
theorem sizeof_LPWSTR_cases (arch : Arch) :
    sizeof_LPWSTR arch = 4 ∨ sizeof_LPWSTR arch = 8 := by
  cases arch
  · exact Or.inl rfl
  · exact Or.inr rfl

/-- The successful path of `reg_fetch_sz`: for a fetched blob that fits the
buffer it was fetched into, once the buffer allocation succeeds, the result is
the data followed by pointer-size many zero bytes. -/
theorem reg_fetch_sz_of_fetched {W : Type} (K : Kernel W)
    (reg_key : HANDLE) (value_name : List WCHAR) (s : Sys W)
    (kvi : Block KEY_VALUE_PARTIAL_INFORMATION)
    (hst : NT_SUCCESS (reg_fetch_kvi K reg_key value_name s).status = true)
    (hout : (reg_fetch_kvi K reg_key value_name s).out = some kvi)
    (hfit : KEY_VALUE_PARTIAL_INFORMATION_HEADER + kvi.val.DataLength
      ≤ kvi.size)
    (halloc : (K.ExAllocatePoolWithTag
      (reg_fetch_kvi K reg_key value_name s).sys.world
      (kvi.val.DataLength + sizeof_LPWSTR K.arch)).1 = true) :
    reg_fetch_sz K reg_key value_name s =
      Except.ok ⟨STATUS_SUCCESS,
        some ⟨(reg_fetch_kvi K reg_key value_name s).sys.trace.length + 1,
          kvi.val.DataLength + sizeof_LPWSTR K.arch,
          kvi.val.Data ++ List.replicate (sizeof_LPWSTR K.arch) 0⟩,
        ExFreePool
          ⟨(K.ExAllocatePoolWithTag
              (reg_fetch_kvi K reg_key value_name s).sys.world
              (kvi.val.DataLength + sizeof_LPWSTR K.arch)).2,
            (reg_fetch_kvi K reg_key value_name s).sys.trace ++
              [PoolEvent.alloc
                ((reg_fetch_kvi K reg_key value_name s).sys.trace.length + 1)
                (kvi.val.DataLength + sizeof_LPWSTR K.arch)]⟩
          kvi.addr⟩ := by
  have hsucc := reg_fetch_kvi_success_status K reg_key value_name s kvi hst hout
  have hsz := reg_fetch_kvi_block_size K reg_key value_name s kvi hout
  have hp := sizeof_LPWSTR_cases K.arch
  have hlen : (kvi.val.DataLength + sizeof_LPWSTR K.arch) % ULONG_RANGE
      = kvi.val.DataLength + sizeof_LPWSTR K.arch := by
    apply Nat.mod_eq_of_lt
    simp only [KEY_VALUE_PARTIAL_INFORMATION_HEADER] at hfit
    simp only [ULONG_RANGE] at hsz ⊢
    omega
  have hcopy : RtlCopyMemory
      (RtlZeroMemory (kvi.val.DataLength + sizeof_LPWSTR K.arch))
      kvi.val.Data kvi.val.DataLength =
      Except.ok (kvi.val.Data ++ List.replicate (sizeof_LPWSTR K.arch) 0) :=
    RtlCopyMemory_padded kvi.val.Data (sizeof_LPWSTR K.arch)
  have hfield : ¬ kvi.size < OFFSET_DataLength + sizeof_ULONG := by
    simp only [KEY_VALUE_PARTIAL_INFORMATION_HEADER] at hfit
    simp only [OFFSET_DataLength, sizeof_ULONG]
    omega
  have hdata : ¬ kvi.size <
      KEY_VALUE_PARTIAL_INFORMATION_HEADER + kvi.val.DataLength :=
    Nat.not_lt.mpr hfit
  simp only [reg_fetch_sz, hout, hlen, allocate, halloc, hsucc, hfield, hdata,
    NT_SUCCESS_STATUS_SUCCESS, not_true_eq_false, if_false, if_true, hcopy]

/-- C7: for every successfully fetched blob that fits the buffer it was
fetched into, of any data length (odd lengths and data without terminator
included), once the buffer allocation succeeds `reg_fetch_sz` returns success
with a buffer that holds the blob's data bytes unchanged at its start and, read
as a wide string from its start, holds a complete zero code unit inside the
allocation. -/
theorem C7_reg_fetch_sz_buffer_is_terminated {W : Type} (K : Kernel W)
    (reg_key : HANDLE) (value_name : List WCHAR) (s : Sys W)
    (kvi : Block KEY_VALUE_PARTIAL_INFORMATION)
    (hst : NT_SUCCESS (reg_fetch_kvi K reg_key value_name s).status = true)
    (hout : (reg_fetch_kvi K reg_key value_name s).out = some kvi)
    (hfit : KEY_VALUE_PARTIAL_INFORMATION_HEADER + kvi.val.DataLength
      ≤ kvi.size)
    (halloc : (K.ExAllocatePoolWithTag
      (reg_fetch_kvi K reg_key value_name s).sys.world
      (kvi.val.DataLength + sizeof_LPWSTR K.arch)).1 = true) :
    ∃ r b, reg_fetch_sz K reg_key value_name s = Except.ok r ∧
      r.status = STATUS_SUCCESS ∧ r.out = some b ∧
      b.size = kvi.val.DataLength + sizeof_LPWSTR K.arch ∧
      b.val.length = b.size ∧
      b.val.take kvi.val.DataLength = kvi.val.Data ∧
      (read_wstring b.val).isSome = true := by
  have hrun := reg_fetch_sz_of_fetched K reg_key value_name s kvi hst hout hfit
    halloc
  have hp := sizeof_LPWSTR_cases K.arch
  refine ⟨_, _, hrun, rfl, rfl, rfl, ?_, ?_, ?_⟩
  · simp [KEY_VALUE_PARTIAL_INFORMATION.DataLength]
  · simp [KEY_VALUE_PARTIAL_INFORMATION.DataLength]
  · rcases hp with hp | hp
    · rw [hp]
      exact read_wstring_padded kvi.val.Data [0]
    · rw [hp]
      exact read_wstring_padded kvi.val.Data [0, 0, 0, 0, 0]

/-- C7 at the witness: a value of the 3 bytes `41 00 42` (odd length, no
terminator) in a 15-byte block, on amd64: an 11-byte buffer that starts with
the data and holds a zero code unit. -/
theorem C7_reg_fetch_sz_buffer_is_terminated_witness :
    ∃ r b, reg_fetch_sz
        (scripted_kernel Arch.amd64 STATUS_BUFFER_TOO_SMALL 15 STATUS_SUCCESS
          true STATUS_SUCCESS [65, 0, 66]) 1 [78] (boot ()) = Except.ok r ∧
      r.status = STATUS_SUCCESS ∧ r.out = some b ∧
      b.size = 3 + 8 ∧
      b.val.length = b.size ∧
      b.val.take 3 = [65, 0, 66] ∧
      (read_wstring b.val).isSome = true :=
  C7_reg_fetch_sz_buffer_is_terminated
    (scripted_kernel Arch.amd64 STATUS_BUFFER_TOO_SMALL 15 STATUS_SUCCESS true
      STATUS_SUCCESS [65, 0, 66]) 1 [78] (boot ())
    (Block.mk 1 15 (KEY_VALUE_PARTIAL_INFORMATION.mk REG_SZ [65, 0, 66]))
    rfl rfl (by decide) rfl

/-! ## Outcome of the sized query protocol -/

/-- The four paths of `reg_fetch_kvi`, by the answers of the kernel: the size
query `q1`, the allocation, and the fetch `q2`. -/
theorem reg_fetch_kvi_outcome {W : Type} (K : Kernel W) (reg_key : HANDLE)
    (value_name : List WCHAR) (s : Sys W)
    (q1 q2 : QueryResult KEY_VALUE_PARTIAL_INFORMATION W) (alloc_ok : Bool)
    (w2 : W)
    (hq1 : K.ZwQueryValueKey s.world reg_key value_name false 0 = q1)
    (ha : K.ExAllocatePoolWithTag q1.world (q1.resultLength % ULONG_RANGE)
      = (alloc_ok, w2))
    (hq2 : K.ZwQueryValueKey w2 reg_key value_name true
      (q1.resultLength % ULONG_RANGE) = q2) :
    reg_fetch_kvi K reg_key value_name s =
      if ¬ (q1.status = STATUS_SUCCESS ∨ q1.status = STATUS_BUFFER_OVERFLOW ∨
          q1.status = STATUS_BUFFER_TOO_SMALL) then
        ⟨q1.status, none, ⟨q1.world, s.trace⟩⟩
      else if alloc_ok = false then
        ⟨STATUS_INSUFFICIENT_RESOURCES, none, ⟨w2, s.trace⟩⟩
      else if NT_SUCCESS q2.status = false then
        ⟨q2.status,
          some ⟨s.trace.length + 1, q1.resultLength % ULONG_RANGE, q2.info⟩,
          ⟨q2.world, s.trace ++
            [PoolEvent.alloc (s.trace.length + 1)
              (q1.resultLength % ULONG_RANGE),
             PoolEvent.free (s.trace.length + 1)]⟩⟩
      else
        ⟨STATUS_SUCCESS,
          some ⟨s.trace.length + 1, q1.resultLength % ULONG_RANGE, q2.info⟩,
          ⟨q2.world, s.trace ++
            [PoolEvent.alloc (s.trace.length + 1)
              (q1.resultLength % ULONG_RANGE)]⟩⟩ := by
  unfold reg_fetch_kvi allocate
  simp only [hq1, ha]
  by_cases h1 : q1.status = STATUS_SUCCESS ∨ q1.status = STATUS_BUFFER_OVERFLOW ∨
      q1.status = STATUS_BUFFER_TOO_SMALL
  · simp only [h1, not_true_eq_false, if_false]
    cases alloc_ok with
    | false => simp
    | true =>
      simp only [if_true, hq2]
      by_cases h2 : NT_SUCCESS q2.status = true
      · simp [h2]
      · simp [h2, ExFreePool]
  · simp only [h1, not_false_eq_true, if_true]

/-- The four paths of `reg_fetch_ki`, by the answers of the kernel. -/
theorem reg_fetch_ki_outcome {W : Type} (K : Kernel W) (reg_key : HANDLE)
    (s : Sys W) (q1 q2 : QueryResult KEY_FULL_INFORMATION W) (alloc_ok : Bool)
    (w2 : W)
    (hq1 : K.ZwQueryKey s.world reg_key false 0 = q1)
    (ha : K.ExAllocatePoolWithTag q1.world (q1.resultLength % ULONG_RANGE)
      = (alloc_ok, w2))
    (hq2 : K.ZwQueryKey w2 reg_key true (q1.resultLength % ULONG_RANGE) = q2) :
    reg_fetch_ki K reg_key s =
      if ¬ (q1.status = STATUS_SUCCESS ∨ q1.status = STATUS_BUFFER_OVERFLOW ∨
          q1.status = STATUS_BUFFER_TOO_SMALL) then
        ⟨q1.status, none, ⟨q1.world, s.trace⟩⟩
      else if alloc_ok = false then
        ⟨STATUS_INSUFFICIENT_RESOURCES, none, ⟨w2, s.trace⟩⟩
      else if NT_SUCCESS q2.status = false then
        ⟨q2.status,
          some ⟨s.trace.length + 1, q1.resultLength % ULONG_RANGE, q2.info⟩,
          ⟨q2.world, s.trace ++
            [PoolEvent.alloc (s.trace.length + 1)
              (q1.resultLength % ULONG_RANGE),
             PoolEvent.free (s.trace.length + 1)]⟩⟩
      else
        ⟨STATUS_SUCCESS,
          some ⟨s.trace.length + 1, q1.resultLength % ULONG_RANGE, q2.info⟩,
          ⟨q2.world, s.trace ++
            [PoolEvent.alloc (s.trace.length + 1)
              (q1.resultLength % ULONG_RANGE)]⟩⟩ := by
  unfold reg_fetch_ki allocate
  simp only [hq1, ha]
  by_cases h1 : q1.status = STATUS_SUCCESS ∨ q1.status = STATUS_BUFFER_OVERFLOW ∨
      q1.status = STATUS_BUFFER_TOO_SMALL
  · simp only [h1, not_true_eq_false, if_false]
    cases alloc_ok with
    | false => simp
    | true =>
      simp only [if_true, hq2]
      by_cases h2 : NT_SUCCESS q2.status = true
      · simp [h2]
      · simp [h2, ExFreePool]
  · simp only [h1, not_false_eq_true, if_true]

/-- The four paths of `reg_fetch_subkey`, by the answers of the kernel. -/
theorem reg_fetch_subkey_outcome {W : Type} (K : Kernel W) (reg_key : HANDLE)
    (index : Nat) (s : Sys W)
    (q1 q2 : QueryResult KEY_BASIC_INFORMATION W) (alloc_ok : Bool) (w2 : W)
    (hq1 : K.ZwEnumerateKey s.world reg_key index false 0 = q1)
    (ha : K.ExAllocatePoolWithTag q1.world (q1.resultLength % ULONG_RANGE)
      = (alloc_ok, w2))
    (hq2 : K.ZwEnumerateKey w2 reg_key index true
      (q1.resultLength % ULONG_RANGE) = q2) :
    reg_fetch_subkey K reg_key index s =
      if ¬ (q1.status = STATUS_SUCCESS ∨ q1.status = STATUS_BUFFER_OVERFLOW ∨
          q1.status = STATUS_BUFFER_TOO_SMALL) then
        ⟨q1.status, none, ⟨q1.world, s.trace⟩⟩
      else if alloc_ok = false then
        ⟨STATUS_INSUFFICIENT_RESOURCES, none, ⟨w2, s.trace⟩⟩
      else if NT_SUCCESS q2.status = false then
        ⟨q2.status,
          some ⟨s.trace.length + 1, q1.resultLength % ULONG_RANGE, q2.info⟩,
          ⟨q2.world, s.trace ++
            [PoolEvent.alloc (s.trace.length + 1)
              (q1.resultLength % ULONG_RANGE),
             PoolEvent.free (s.trace.length + 1)]⟩⟩
      else
        ⟨STATUS_SUCCESS,
          some ⟨s.trace.length + 1, q1.resultLength % ULONG_RANGE, q2.info⟩,
          ⟨q2.world, s.trace ++
            [PoolEvent.alloc (s.trace.length + 1)
              (q1.resultLength % ULONG_RANGE)]⟩⟩ := by
  unfold reg_fetch_subkey allocate
  simp only [hq1, ha]
  by_cases h1 : q1.status = STATUS_SUCCESS ∨ q1.status = STATUS_BUFFER_OVERFLOW ∨
      q1.status = STATUS_BUFFER_TOO_SMALL
  · simp only [h1, not_true_eq_false, if_false]
    cases alloc_ok with
    | false => simp
    | true =>
      simp only [if_true, hq2]
      by_cases h2 : NT_SUCCESS q2.status = true
      · simp [h2]
      · simp [h2, ExFreePool]
  · simp only [h1, not_false_eq_true, if_true]

/-- C8, at the failing input: the size query answers with the success-class
status `0x40000000`, which is none of success, buffer-too-small and
buffer-overflow.  Each of the three readers returns that status without
allocating, with a NULL block, and the status passes `NT_SUCCESS`: the reader
has not returned a failure. -/
theorem C8_readers_return_success_class_status_without_block :
    NT_SUCCESS STATUS_OBJECT_NAME_EXISTS = true ∧
    STATUS_OBJECT_NAME_EXISTS ≠ STATUS_SUCCESS ∧
    STATUS_OBJECT_NAME_EXISTS ≠ STATUS_BUFFER_OVERFLOW ∧
    STATUS_OBJECT_NAME_EXISTS ≠ STATUS_BUFFER_TOO_SMALL ∧
    (let r := reg_fetch_ki
        (scripted_kernel Arch.amd64 STATUS_OBJECT_NAME_EXISTS 44 STATUS_SUCCESS true
          STATUS_SUCCESS []) 1 (boot ())
     r.status = STATUS_OBJECT_NAME_EXISTS ∧ r.out = none ∧
       r.sys.trace = []) ∧
    (let r := reg_fetch_subkey
        (scripted_kernel Arch.amd64 STATUS_OBJECT_NAME_EXISTS 44 STATUS_SUCCESS true
          STATUS_SUCCESS []) 1 0 (boot ())
     r.status = STATUS_OBJECT_NAME_EXISTS ∧ r.out = none ∧
       r.sys.trace = []) ∧
    (let r := reg_fetch_kvi
        (scripted_kernel Arch.amd64 STATUS_OBJECT_NAME_EXISTS 44 STATUS_SUCCESS true
          STATUS_SUCCESS []) 1 [78] (boot ())
     r.status = STATUS_OBJECT_NAME_EXISTS ∧ r.out = none ∧
       r.sys.trace = []) := by
  refine ⟨by decide, by decide, by decide, by decide, ⟨rfl, rfl, rfl⟩,
    ⟨rfl, rfl, rfl⟩, ⟨rfl, rfl, rfl⟩⟩

/-! ## Absence of a value or of a subkey index -/

/-- Reading a stored value through `reg_fetch_kvi` over the reference store:
the block holds the type tag and exactly the stored bytes. -/
theorem reg_fetch_kvi_registry (arch : Arch) (w : Registry) (reg_key : HANDLE) (k : RegKey)
    (value_name : List WCHAR) (v : RegValue) (t : List PoolEvent)
    (hkey : w reg_key = some k) (hval : k.values value_name = some v)
    (hsize : KEY_VALUE_PARTIAL_INFORMATION_HEADER + v.data.length
      < ULONG_RANGE) :
    reg_fetch_kvi (registry_kernel arch) reg_key value_name ⟨w, t⟩ =
      ⟨STATUS_SUCCESS,
        some ⟨t.length + 1,
          KEY_VALUE_PARTIAL_INFORMATION_HEADER + v.data.length,
          ⟨v.type, v.data⟩⟩,
        ⟨w, t ++ [PoolEvent.alloc (t.length + 1)
          (KEY_VALUE_PARTIAL_INFORMATION_HEADER + v.data.length)]⟩⟩ := by
  have hq1 : (registry_kernel arch).ZwQueryValueKey w reg_key value_name false 0 =
      ⟨STATUS_BUFFER_TOO_SMALL, ⟨v.type, v.data⟩,
        KEY_VALUE_PARTIAL_INFORMATION_HEADER + v.data.length, w⟩ := by
    simp [registry_kernel, hkey, hval, sized_status,
      KEY_VALUE_PARTIAL_INFORMATION_HEADER]
  have hmod : (KEY_VALUE_PARTIAL_INFORMATION_HEADER + v.data.length)
      % ULONG_RANGE = KEY_VALUE_PARTIAL_INFORMATION_HEADER + v.data.length :=
    Nat.mod_eq_of_lt hsize
  have hq2 : (registry_kernel arch).ZwQueryValueKey w reg_key value_name true
      (KEY_VALUE_PARTIAL_INFORMATION_HEADER + v.data.length) =
      ⟨STATUS_SUCCESS, ⟨v.type, v.data⟩,
        KEY_VALUE_PARTIAL_INFORMATION_HEADER + v.data.length, w⟩ := by
    simp [registry_kernel, hkey, hval, sized_status,
      KEY_VALUE_PARTIAL_INFORMATION_HEADER]
  rw [reg_fetch_kvi_outcome (registry_kernel arch) reg_key value_name ⟨w, t⟩ _ _ true w
    hq1 (by simp [registry_kernel]) (by simp only [hmod]; exact hq2)]
  simp only [hmod]
  rw [if_neg (by simp), if_neg (by simp), if_neg (by simp [NT_SUCCESS_STATUS_SUCCESS])]

/-- Writing a value into the reference store: the write is accepted and the
key then holds the type tag and the first `data_size` bytes under the name. -/
theorem ZwSetValueKey_registry (arch : Arch) (w : Registry)
    (reg_key : HANDLE) (k : RegKey)
    (value_name : List WCHAR) (type : Nat) (data : List UCHAR)
    (data_size : Nat) (hkey : w reg_key = some k) :
    ((registry_kernel arch).ZwSetValueKey w reg_key value_name type data
        data_size).1 = STATUS_SUCCESS ∧
    ∃ k1, ((registry_kernel arch).ZwSetValueKey w reg_key value_name type data
        data_size).2 reg_key = some k1 ∧
      k1.values value_name = some ⟨type, data.take data_size⟩ := by
  simp [registry_kernel, hkey]

/-- Four bytes of a `ULONG` decode to the value they encode. -/
theorem bytes_ulong_ulong_bytes (v : Nat) (hv : v < ULONG_RANGE) :
    bytes_ulong (ulong_bytes v) = v := by
  simp only [ULONG_RANGE] at hv
  simp only [ulong_bytes, bytes_ulong]
  omega

/-- C10: over the store that keeps what is written, for every 32-bit
unsigned value `v` and every open key, `reg_store_dword` followed by
`reg_fetch_dword` on the same key and name succeeds and yields `v`. -/
theorem C10_dword_round_trip (arch : Arch) (w : Registry) (reg_key : HANDLE) (k : RegKey)
    (value_name : List WCHAR) (v : Nat) (t : List PoolEvent)
    (hkey : w reg_key = some k) (hv : v < ULONG_RANGE) :
    (reg_store_dword (registry_kernel arch) reg_key value_name v ⟨w, t⟩).status
      = STATUS_SUCCESS ∧
    ∃ r, reg_fetch_dword (registry_kernel arch) reg_key value_name
        (reg_store_dword (registry_kernel arch) reg_key value_name v ⟨w, t⟩).sys
        = Except.ok r ∧
      r.status = STATUS_SUCCESS ∧ r.out = v := by
  obtain ⟨hset, k1, hk1, hv1⟩ := ZwSetValueKey_registry arch w reg_key k value_name
    REG_DWORD (ulong_bytes (v % ULONG_RANGE)) sizeof_ULONG hkey
  have hstore : reg_store_dword (registry_kernel arch) reg_key value_name v ⟨w, t⟩ =
      ⟨STATUS_SUCCESS, (),
        ⟨((registry_kernel arch).ZwSetValueKey w reg_key value_name REG_DWORD
          (ulong_bytes (v % ULONG_RANGE)) sizeof_ULONG).2, t⟩⟩ := by
    simp only [reg_store_dword, hset, NT_SUCCESS_STATUS_SUCCESS,
      not_true_eq_false, if_false]
  have hdata : (ulong_bytes (v % ULONG_RANGE)).take sizeof_ULONG
      = ulong_bytes v := by
    rw [Nat.mod_eq_of_lt hv]; rfl
  rw [hdata] at hv1
  have hfetch := reg_fetch_kvi_registry arch _ reg_key k1 value_name
    ⟨REG_DWORD, ulong_bytes v⟩ t hk1 hv1
    (by simp [ulong_bytes, KEY_VALUE_PARTIAL_INFORMATION_HEADER, ULONG_RANGE])
  rw [hstore]
  have hcopy := RtlCopyMemory_ulong (ulong_bytes v) rfl
  have hlen : (KEY_VALUE_PARTIAL_INFORMATION.mk REG_DWORD
      (ulong_bytes v)).DataLength = sizeof_ULONG := rfl
  have hdw : reg_fetch_dword (registry_kernel arch) reg_key value_name
      ⟨((registry_kernel arch).ZwSetValueKey w reg_key value_name REG_DWORD
          (ulong_bytes (v % ULONG_RANGE)) sizeof_ULONG).2, t⟩ =
      Except.ok ⟨STATUS_SUCCESS, v,
        ExFreePool ⟨((registry_kernel arch).ZwSetValueKey w reg_key value_name
          REG_DWORD (ulong_bytes (v % ULONG_RANGE)) sizeof_ULONG).2,
          t ++ [PoolEvent.alloc (t.length + 1)
            (KEY_VALUE_PARTIAL_INFORMATION_HEADER + 4)]⟩ (t.length + 1)⟩ := by
    simp only [reg_fetch_dword, hfetch, NT_SUCCESS_STATUS_SUCCESS,
      not_true_eq_false, if_false]
    simp only [hlen, ne_eq, not_true_eq_false, if_false, hcopy,
      bytes_ulong_ulong_bytes v hv]
    rfl
  exact ⟨rfl, _, hdw, rfl, rfl⟩

/-- C10 at the witness: the value 42. -/
theorem C10_dword_round_trip_witness :
    (reg_store_dword (registry_kernel Arch.amd64) 1 [78] 42 ⟨one_key [], []⟩).status
      = STATUS_SUCCESS ∧
    ∃ r, reg_fetch_dword (registry_kernel Arch.amd64) 1 [78]
        (reg_store_dword (registry_kernel Arch.amd64) 1 [78] 42 ⟨one_key [], []⟩).sys
        = Except.ok r ∧
      r.status = STATUS_SUCCESS ∧ r.out = 42 :=
  C10_dword_round_trip Arch.amd64 (one_key []) 1 ⟨[], fun _ => none⟩ [78] 42 [] rfl
    (by decide)

/-- Allocations over the reference store succeed. -/
theorem allocate_registry (arch : Arch) (s : Sys Registry) (size : Nat) :
    allocate (registry_kernel arch) s size =
      (some (s.trace.length + 1),
        ⟨s.world, s.trace ++ [PoolEvent.alloc (s.trace.length + 1) size]⟩) :=
  rfl

/-- Reading a stored value through `reg_fetch_sz` over the reference store:
the buffer holds the stored bytes followed by pointer-size many zero bytes. -/
theorem reg_fetch_sz_registry (arch : Arch) (w : Registry) (reg_key : HANDLE)
    (k : RegKey) (value_name : List WCHAR) (v : RegValue) (t : List PoolEvent)
    (hkey : w reg_key = some k) (hval : k.values value_name = some v)
    (hsize : KEY_VALUE_PARTIAL_INFORMATION_HEADER + v.data.length
      < ULONG_RANGE) :
    ∃ sys, reg_fetch_sz (registry_kernel arch) reg_key value_name ⟨w, t⟩ =
      Except.ok ⟨STATUS_SUCCESS,
        some ⟨t.length + 2, v.data.length + sizeof_LPWSTR arch,
          v.data ++ List.replicate (sizeof_LPWSTR arch) 0⟩, sys⟩ := by
  have hfetch := reg_fetch_kvi_registry arch w reg_key k value_name v t hkey
    hval hsize
  have hrun := reg_fetch_sz_of_fetched (registry_kernel arch) reg_key value_name
    ⟨w, t⟩ ⟨t.length + 1, KEY_VALUE_PARTIAL_INFORMATION_HEADER + v.data.length,
      ⟨v.type, v.data⟩⟩
    (by rw [hfetch]; exact NT_SUCCESS_STATUS_SUCCESS)
    (by rw [hfetch])
    (le_refl _) rfl
  rw [hfetch] at hrun
  have harch : (registry_kernel arch).arch = arch := rfl
  simp only [KEY_VALUE_PARTIAL_INFORMATION.DataLength, harch,
    List.length_append, List.length_singleton] at hrun
  exact ⟨_, hrun⟩

/-- A sequence of code units takes two bytes per unit. -/
theorem wcs_bytes_length (units : List WCHAR) :
    (wcs_bytes units).length = units.length * 2 := by
  induction units with
  | nil => rfl
  | cons c rest ih =>
    simp only [wcs_bytes, wchar_bytes, List.length_append, List.length_cons,
      List.length_nil, ih]
    omega

/-- A list without zero units is its own C string. -/
theorem c_str_of_nonzero (value : List WCHAR) (h : ∀ c ∈ value, c ≠ 0) :
    c_str value = value := by
  unfold c_str
  rw [List.takeWhile_eq_self_iff]
  intro c hc
  simpa using h c hc

/-- A 16-bit unit is recovered from its two bytes. -/
theorem wchar_of_bytes (c : Nat) (h : c < 65536) :
    c % 256 + 256 * (c / 256 % 256) = c := by
  omega

/-- Reading back the bytes of a string of non-zero 16-bit units followed by
its terminator yields the string, whatever follows. -/
theorem read_wstring_wcs_bytes (value : List WCHAR) (tail : List UCHAR)
    (h : ∀ c ∈ value, c ≠ 0 ∧ c < 65536) :
    read_wstring (wcs_bytes (value ++ [0]) ++ tail) = some value := by
  induction value with
  | nil => simp [wcs_bytes, wchar_bytes, read_wstring]
  | cons c rest ih =>
    have hc := h c (List.mem_cons_self c rest)
    have hrest := ih (fun x hx => h x (List.mem_cons_of_mem c hx))
    have hval : c % 256 + 256 * (c / 256 % 256) = c := wchar_of_bytes c hc.2
    have hbytes : wcs_bytes ((c :: rest) ++ [0]) ++ tail =
        (c % 256) :: (c / 256 % 256) :: (wcs_bytes (rest ++ [0]) ++ tail) := by
      simp [wcs_bytes, wchar_bytes]
    rw [hbytes, read_wstring, hval, if_neg hc.1, hrest]
    rfl

/-- C9: over the store that keeps what is written, for every string of
non-zero 16-bit code units whose value block fits a `ULONG` length and every
open key, `reg_store_sz` followed by `reg_fetch_sz` on the same key and name
succeeds and yields a buffer that reads as a null-terminated wide string
equal to the stored one. -/
theorem C9_string_round_trip (arch : Arch) (w : Registry) (reg_key : HANDLE) (k : RegKey)
    (value_name value : List WCHAR) (t : List PoolEvent)
    (hkey : w reg_key = some k)
    (hvalue : ∀ c ∈ value, c ≠ 0 ∧ c < 65536)
    (hsize : KEY_VALUE_PARTIAL_INFORMATION_HEADER +
      (value.length + 1) * sizeof_WCHAR < ULONG_RANGE) :
    (reg_store_sz (registry_kernel arch) reg_key value_name value ⟨w, t⟩).status
      = STATUS_SUCCESS ∧
    ∃ r b, reg_fetch_sz (registry_kernel arch) reg_key value_name
        (reg_store_sz (registry_kernel arch) reg_key value_name value ⟨w, t⟩).sys
        = Except.ok r ∧
      r.status = STATUS_SUCCESS ∧ r.out = some b ∧
      read_wstring b.val = some value := by
  have hc : c_str value = value :=
    c_str_of_nonzero value (fun c h => (hvalue c h).1)
  have hwl : wcslen value = value.length := by
    unfold wcslen; rw [hc]
  have hblen : (wcs_bytes (value ++ [0])).length
      = (value.length + 1) * sizeof_WCHAR := by
    rw [wcs_bytes_length]; simp [sizeof_WCHAR]
  have hmod : (value.length + 1) * sizeof_WCHAR % ULONG_RANGE
      = (value.length + 1) * sizeof_WCHAR := by
    apply Nat.mod_eq_of_lt
    simp only [KEY_VALUE_PARTIAL_INFORMATION_HEADER] at hsize
    omega
  obtain ⟨hset, k1, hk1, hv1⟩ := ZwSetValueKey_registry arch w reg_key k value_name
    REG_SZ ((wcs_bytes (value ++ [0])).take ((value.length + 1) * sizeof_WCHAR))
    ((value.length + 1) * sizeof_WCHAR) hkey
  have htake : ((wcs_bytes (value ++ [0])).take
      ((value.length + 1) * sizeof_WCHAR)).take
      ((value.length + 1) * sizeof_WCHAR) = wcs_bytes (value ++ [0]) := by
    rw [List.take_take, Nat.min_self, ← hblen, List.take_length]
  rw [htake] at hv1
  have hstore : reg_store_sz (registry_kernel arch) reg_key value_name value ⟨w, t⟩ =
      ⟨STATUS_SUCCESS, (),
        ⟨((registry_kernel arch).ZwSetValueKey w reg_key value_name REG_SZ
          ((wcs_bytes (value ++ [0])).take
            ((value.length + 1) * sizeof_WCHAR))
          ((value.length + 1) * sizeof_WCHAR)).2, t⟩⟩ := by
    simp only [reg_store_sz, hc, hwl, hmod, hset, NT_SUCCESS_STATUS_SUCCESS,
      not_true_eq_false, if_false]
  obtain ⟨sys, hfetch⟩ := reg_fetch_sz_registry arch _ reg_key k1 value_name
    ⟨REG_SZ, wcs_bytes (value ++ [0])⟩ t hk1 hv1
    (by simp only [hblen]; exact hsize)
  rw [hstore]
  exact ⟨rfl, _, _, hfetch, rfl, rfl,
    read_wstring_wcs_bytes value _ hvalue⟩

/-- C9 at the witness: the string `hello`. -/
theorem C9_string_round_trip_witness :
    (reg_store_sz (registry_kernel Arch.amd64) 1 [78] [104, 101, 108, 108, 111]
      ⟨one_key [], []⟩).status = STATUS_SUCCESS ∧
    ∃ r b, reg_fetch_sz (registry_kernel Arch.amd64) 1 [78]
        (reg_store_sz (registry_kernel Arch.amd64) 1 [78] [104, 101, 108, 108, 111]
          ⟨one_key [], []⟩).sys = Except.ok r ∧
      r.status = STATUS_SUCCESS ∧ r.out = some b ∧
      read_wstring b.val = some [104, 101, 108, 108, 111] :=
  C9_string_round_trip Arch.amd64 (one_key []) 1 ⟨[], fun _ => none⟩ [78]
    [104, 101, 108, 108, 111] [] rfl (by decide) (by decide)

/-! ## Complete enumeration -/

/-- The loop of `reg_enum_subkeys`, entered at `index` for the `d` remaining
rounds with the visitor in the state it has before call `index`, when every
name resolution and every visitor call succeeds: the loop visits the names of
`index`, ..., `index + d - 1` in order and ends with a success status. -/
theorem reg_enum_subkeys_loop_complete {W σ : Type} (K : Kernel W)
    (reg_key : HANDLE) (callback : σ → Option (List UCHAR) → NTSTATUS × σ)
    (opaque_state : σ) (names : Nat → List UCHAR) (n : Nat)
    (Inv : W → Prop)
    (hnames : ∀ i, i < n → ∀ s : Sys W, Inv s.world →
      ∃ f b, reg_fetch_subkey_name K reg_key i s = Except.ok f ∧
        NT_SUCCESS f.status = true ∧ f.out = some b ∧ b.val = names i ∧
        Inv f.sys.world)
    (hok : ∀ i, i < n →
      NT_SUCCESS (visitor_status callback opaque_state names i) = true) :
    ∀ (d index : Nat) (status : NTSTATUS)
      (visits : List (Option (List UCHAR))) (s : Sys W),
      index + d = n → Inv s.world → NT_SUCCESS status = true →
      ∃ r, reg_enum_subkeys_loop K callback reg_key d index status
          (visitor_state callback opaque_state names index) visits s
          = Except.ok r ∧
        r.visits = visits ++
          (List.range' index d).map (fun i => some (names i)) ∧
        NT_SUCCESS r.status = true ∧
        r.opaque_state = visitor_state callback opaque_state names n := by
  intro d
  induction d with
  | zero =>
    intro index status visits s hn _ hst
    simp only [Nat.add_zero] at hn
    subst hn
    exact ⟨_, rfl, by simp [List.range'], hst, rfl⟩
  | succ d ih =>
    intro index status visits s hn hinv _
    obtain ⟨f, b, hf, hfs, hout, hval, hinv1⟩ :=
      hnames index (by omega) s hinv
    have hcall : NT_SUCCESS (callback
        (visitor_state callback opaque_state names index)
        (some (names index))).1 = true := hok index (by omega)
    obtain ⟨r, hr, hv, hst, hop⟩ := ih (index + 1)
      (callback (visitor_state callback opaque_state names index)
        (some (names index))).1
      (visits ++ [some (names index)])
      (ExFreePool (hand_over f.sys b.addr) b.addr)
      (by omega) hinv1 hcall
    refine ⟨r, ?_, ?_, hst, hop⟩
    · simp only [reg_enum_subkeys_loop, hf, hfs, hout, Option.map, hval, hcall,
        not_true_eq_false, if_false]
      exact hr
    · rw [hv, List.range'_succ index d]
      simp

/-- C11: for a key whose subkey count is read as `n` (zero included), whose
name resolutions all succeed (index `i` yielding `names i`) and whose visitor
succeeds on every call, `reg_enum_subkeys` returns a success status and has
invoked the visitor exactly `n` times, call `i` receiving the name of index
`i`, for `i = 0, ..., n - 1` in ascending order. -/
theorem C11_complete_in_order_enumeration {W σ : Type}
    (K : Kernel W) (reg_key : HANDLE)
    (callback : σ → Option (List UCHAR) → NTSTATUS × σ) (opaque_state : σ)
    (names : Nat → List UCHAR) (n : Nat) (Inv : W → Prop) (s : Sys W)
    (hcount : ∃ c, reg_fetch_subkeys K reg_key s = Except.ok c ∧
      NT_SUCCESS c.status = true ∧ c.out = n ∧ Inv c.sys.world)
    (hnames : ∀ i, i < n → ∀ s1 : Sys W, Inv s1.world →
      ∃ f b, reg_fetch_subkey_name K reg_key i s1 = Except.ok f ∧
        NT_SUCCESS f.status = true ∧ f.out = some b ∧ b.val = names i ∧
        Inv f.sys.world)
    (hok : ∀ i, i < n →
      NT_SUCCESS (visitor_status callback opaque_state names i) = true) :
    ∃ r, reg_enum_subkeys K reg_key callback opaque_state s = Except.ok r ∧
      r.visits = (List.range n).map (fun i => some (names i)) ∧
      r.visits.length = n ∧
      NT_SUCCESS r.status = true := by
  obtain ⟨c, hc, hcs, hcn, hinv⟩ := hcount
  obtain ⟨r, hr, hv, hst, _⟩ := reg_enum_subkeys_loop_complete K reg_key
    callback opaque_state names n Inv hnames hok n 0 c.status [] c.sys
    (by omega) hinv hcs
  refine ⟨r, ?_, ?_, ?_, hst⟩
  · simp only [reg_enum_subkeys, hc, hcs, hcn, not_true_eq_false, if_false]
    exact hr
  · rw [hv, List.range_eq_range']
    simp
  · rw [hv]
    simp

/-- C11 at two witnesses: a key without children, where the visitor is not
invoked, and a key with the five children `A` to `E`, visited in order. -/
theorem C11_complete_in_order_enumeration_witness :
    (∃ r, reg_enum_subkeys (registry_kernel Arch.amd64) 1 count_calls 0
        (boot (one_key [])) = Except.ok r ∧
      r.visits = [] ∧ r.visits.length = 0 ∧ NT_SUCCESS r.status = true) ∧
    (∃ r, reg_enum_subkeys (registry_kernel Arch.amd64) 1 count_calls 0
        (boot (one_key five_children)) = Except.ok r ∧
      r.visits = [some (five_names 0), some (five_names 1),
        some (five_names 2), some (five_names 3), some (five_names 4)] ∧
      r.visits.length = 5 ∧ NT_SUCCESS r.status = true) :=
  ⟨C11_complete_in_order_enumeration (registry_kernel Arch.amd64) 1
      count_calls 0 five_names 0 (fun w => w = one_key [])
      (boot (one_key [])) ⟨_, rfl, rfl, rfl, rfl⟩
      (fun i hi => absurd hi (Nat.not_lt_zero i))
      (fun i hi => absurd hi (Nat.not_lt_zero i)),
   C11_complete_in_order_enumeration (registry_kernel Arch.amd64) 1
      count_calls 0 five_names 5 (fun w => w = one_key five_children)
      (boot (one_key five_children)) ⟨_, rfl, rfl, rfl, rfl⟩
      (by
        rintro i hi ⟨w, t⟩ hw
        simp only at hw
        subst hw
        interval_cases i <;> exact ⟨_, _, rfl, rfl, rfl, rfl, rfl⟩)
      (fun _ _ => rfl)⟩

/-! ## Enumeration stops at the first resolution failure -/

/-- The loop of `reg_enum_subkeys`, entered at `index` with the visitor in the
state it has before call `index`, when the name resolutions and visitor calls
of the `d` indices from `index` on succeed and the resolution of index
`index + d` fails with `st`: the loop visits the names of `index`, ...,
`index + d - 1` and returns `st`. -/
theorem reg_enum_subkeys_loop_resolution_failure {W σ : Type} (K : Kernel W)
    (reg_key : HANDLE) (callback : σ → Option (List UCHAR) → NTSTATUS × σ)
    (opaque_state : σ) (names : Nat → List UCHAR) (j : Nat) (st : NTSTATUS)
    (Inv : W → Prop)
    (hnames : ∀ i, i < j → ∀ s : Sys W, Inv s.world →
      ∃ f b, reg_fetch_subkey_name K reg_key i s = Except.ok f ∧
        NT_SUCCESS f.status = true ∧ f.out = some b ∧ b.val = names i ∧
        Inv f.sys.world)
    (hres : ∀ s : Sys W, Inv s.world →
      ∃ f, reg_fetch_subkey_name K reg_key j s = Except.ok f ∧ f.status = st)
    (hst : NT_SUCCESS st = false)
    (hok : ∀ i, i < j →
      NT_SUCCESS (visitor_status callback opaque_state names i) = true) :
    ∀ (d index remaining : Nat) (status : NTSTATUS)
      (visits : List (Option (List UCHAR))) (s : Sys W),
      index + d = j → d < remaining → Inv s.world →
      ∃ r, reg_enum_subkeys_loop K callback reg_key remaining index status
          (visitor_state callback opaque_state names index) visits s
          = Except.ok r ∧
        r.visits = visits ++
          (List.range' index d).map (fun i => some (names i)) ∧
        r.status = st ∧
        r.opaque_state = visitor_state callback opaque_state names j := by
  intro d
  induction d with
  | zero =>
    intro index remaining status visits s hj hrem hinv
    obtain ⟨rem, rfl⟩ : ∃ rem, remaining = rem + 1 :=
      ⟨remaining - 1, by omega⟩
    simp only [Nat.add_zero] at hj
    subst hj
    obtain ⟨f, hf, hfst⟩ := hres s hinv
    have hfs : NT_SUCCESS f.status = false := by rw [hfst]; exact hst
    simp only [reg_enum_subkeys_loop, hf, hfs, Bool.false_eq_true,
      not_false_eq_true, if_true]
    exact ⟨_, rfl, by simp [List.range'], hfst, rfl⟩
  | succ d ih =>
    intro index remaining status visits s hj hrem hinv
    obtain ⟨rem, rfl⟩ : ∃ rem, remaining = rem + 1 :=
      ⟨remaining - 1, by omega⟩
    obtain ⟨f, b, hf, hfs, hout, hval, hinv1⟩ :=
      hnames index (by omega) s hinv
    have hcall : NT_SUCCESS (callback
        (visitor_state callback opaque_state names index)
        (some (names index))).1 = true := hok index (by omega)
    obtain ⟨r, hr, hv, hrst, hop⟩ := ih (index + 1) rem
      (callback (visitor_state callback opaque_state names index)
        (some (names index))).1
      (visits ++ [some (names index)])
      (ExFreePool (hand_over f.sys b.addr) b.addr)
      (by omega) (by omega) hinv1
    refine ⟨r, ?_, ?_, hrst, hop⟩
    · simp only [reg_enum_subkeys_loop, hf, hfs, hout, Option.map, hval, hcall,
        not_true_eq_false, if_false]
      exact hr
    · rw [hv, List.range'_succ index d]
      simp

/-- C12: for a key whose subkey count is read as `n`, when the name
resolutions and the visitor calls of the indices below `j < n` succeed and
the resolution of index `j` fails with status `st`, `reg_enum_subkeys`
returns exactly `st` and has invoked the visitor exactly on the names of
indices `0, ..., j - 1`, so `j` times and not for index `j` or later. -/
theorem C12_resolution_failure_aborts_enumeration {W σ : Type}
    (K : Kernel W) (reg_key : HANDLE)
    (callback : σ → Option (List UCHAR) → NTSTATUS × σ) (opaque_state : σ)
    (names : Nat → List UCHAR) (n j : Nat) (st : NTSTATUS) (Inv : W → Prop)
    (s : Sys W)
    (hcount : ∃ c, reg_fetch_subkeys K reg_key s = Except.ok c ∧
      NT_SUCCESS c.status = true ∧ c.out = n ∧ Inv c.sys.world)
    (hj : j < n)
    (hnames : ∀ i, i < j → ∀ s1 : Sys W, Inv s1.world →
      ∃ f b, reg_fetch_subkey_name K reg_key i s1 = Except.ok f ∧
        NT_SUCCESS f.status = true ∧ f.out = some b ∧ b.val = names i ∧
        Inv f.sys.world)
    (hres : ∀ s1 : Sys W, Inv s1.world →
      ∃ f, reg_fetch_subkey_name K reg_key j s1 = Except.ok f ∧ f.status = st)
    (hst : NT_SUCCESS st = false)
    (hok : ∀ i, i < j →
      NT_SUCCESS (visitor_status callback opaque_state names i) = true) :
    ∃ r, reg_enum_subkeys K reg_key callback opaque_state s = Except.ok r ∧
      r.visits = (List.range j).map (fun i => some (names i)) ∧
      r.visits.length = j ∧
      r.status = st := by
  obtain ⟨c, hc, hcs, hcn, hinv⟩ := hcount
  obtain ⟨r, hr, hv, hrst, _⟩ := reg_enum_subkeys_loop_resolution_failure K
    reg_key callback opaque_state names j st Inv hnames hres hst hok j 0 n
    c.status [] c.sys (by omega) hj hinv
  refine ⟨r, ?_, ?_, ?_, hrst⟩
  · simp only [reg_enum_subkeys, hc, hcs, hcn, not_true_eq_false, if_false]
    exact hr
  · rw [hv, List.range_eq_range']
    simp
  · rw [hv]
    simp

/-- C12 at the witness: the key metadata still reports five subkeys but the
key holds only `A` and `B`; the resolution of index 2 meets no-more-entries
after two visits, and that status is returned. -/
theorem C12_resolution_failure_aborts_enumeration_witness :
    ∃ r, reg_enum_subkeys (stale_count_kernel Arch.amd64 5) 1 count_calls 0
        (boot (one_key [[65, 0], [66, 0]])) = Except.ok r ∧
      r.visits = [some (five_names 0), some (five_names 1)] ∧
      r.visits.length = 2 ∧
      r.status = STATUS_NO_MORE_ENTRIES :=
  C12_resolution_failure_aborts_enumeration (stale_count_kernel Arch.amd64 5)
    1 count_calls 0 five_names 5 2 STATUS_NO_MORE_ENTRIES
    (fun w => w = one_key [[65, 0], [66, 0]])
    (boot (one_key [[65, 0], [66, 0]]))
    ⟨_, rfl, rfl, rfl, rfl⟩ (by decide)
    (by
      rintro i hi ⟨w, t⟩ hw
      simp only at hw
      subst hw
      interval_cases i <;> exact ⟨_, _, rfl, rfl, rfl, rfl, rfl⟩)
    (by
      rintro ⟨w, t⟩ hw
      simp only at hw
      subst hw
      exact ⟨_, rfl, rfl⟩)
    (by decide)
    (fun _ _ => rfl)

/-! ## The subkey count -/

/-- A fetch that succeeds into a block too short for the field read: with a
size query answering success and size 0, `reg_fetch_subkeys` reads
`ki->SubKeys` outside its 0-byte block. -/
theorem reg_fetch_subkeys_short_block :
    fault_of (reg_fetch_subkeys
        (scripted_kernel Arch.amd64 STATUS_SUCCESS 0 STATUS_SUCCESS true
          STATUS_SUCCESS [1, 2, 3]) 1 (boot ()))
      = some Fault.out_of_bounds := by
  rfl

/-- C14: `reg_fetch_subkeys` returns whenever `reg_fetch_ki` reports a failure
(then with that status and count 0) or comes with a block that holds the
`SubKeys` field (then with that field); and whenever it returns, a failure
status comes with count 0 and a success status with the `SubKeys` field of
the key information block that was fetched, which holds that field. -/
theorem C14_reg_fetch_subkeys_count {W : Type} (K : Kernel W)
    (reg_key : HANDLE) (s : Sys W) :
    (NT_SUCCESS (reg_fetch_ki K reg_key s).status = false →
      reg_fetch_subkeys K reg_key s =
        Except.ok ⟨(reg_fetch_ki K reg_key s).status, 0,
          (reg_fetch_ki K reg_key s).sys⟩) ∧
    (∀ ki, NT_SUCCESS (reg_fetch_ki K reg_key s).status = true →
      (reg_fetch_ki K reg_key s).out = some ki →
      OFFSET_SubKeys + sizeof_ULONG ≤ ki.size →
      reg_fetch_subkeys K reg_key s =
        Except.ok ⟨(reg_fetch_ki K reg_key s).status, ki.val.SubKeys,
          ExFreePool (reg_fetch_ki K reg_key s).sys ki.addr⟩) ∧
    (∀ r, reg_fetch_subkeys K reg_key s = Except.ok r →
      (NT_SUCCESS r.status = false → r.out = 0) ∧
      (NT_SUCCESS r.status = true →
        ∃ ki, (reg_fetch_ki K reg_key s).out = some ki ∧
          OFFSET_SubKeys + sizeof_ULONG ≤ ki.size ∧
          r.out = ki.val.SubKeys)) := by
  refine ⟨?_, ?_, ?_⟩
  · intro hfail
    simp only [reg_fetch_subkeys, hfail, Bool.false_eq_true, not_false_eq_true,
      if_true]
  · intro ki hst hout hfit
    simp only [reg_fetch_subkeys, hst, hout, not_true_eq_false, if_false,
      Nat.not_lt.mpr hfit]
  · intro r hr
    refine ⟨reg_fetch_subkeys_failure_zero K reg_key s r hr, ?_⟩
    intro hsucc
    unfold reg_fetch_subkeys at hr
    simp only [] at hr
    split at hr
    · rename_i hs
      simp only [Bool.not_eq_true] at hs
      cases hr
      simp only [] at hsucc
      rw [hs] at hsucc
      cases hsucc
    · split at hr
      · cases hr
      · rename_i ki hki
        split at hr
        · cases hr
        · rename_i hfit
          cases hr
          exact ⟨ki, hki, Nat.not_lt.mp hfit, rfl⟩

/-- C14 at two witnesses: a key with five children, whose 44-byte key
information block holds the count 5, and an invalid handle, for which the
call fails with count 0. -/
theorem C14_reg_fetch_subkeys_count_witness :
    (∃ r, reg_fetch_subkeys (registry_kernel Arch.amd64) 1
        (boot (one_key five_children)) = Except.ok r ∧
      r.status = STATUS_SUCCESS ∧ r.out = 5) ∧
    (∃ r, reg_fetch_subkeys (registry_kernel Arch.amd64) 2
        (boot (one_key five_children)) = Except.ok r ∧
      r.status = STATUS_INVALID_HANDLE ∧ r.out = 0) :=
  ⟨⟨_, (C14_reg_fetch_subkeys_count (registry_kernel Arch.amd64) 1
      (boot (one_key five_children))).2.1 ⟨1, 44, ⟨5⟩⟩ rfl rfl (by decide),
      rfl, rfl⟩,
   ⟨_, (C14_reg_fetch_subkeys_count (registry_kernel Arch.amd64) 2
      (boot (one_key five_children))).1 rfl, rfl, rfl⟩⟩

/-! ## Decoders and an absent block -/

/-- C18, at the failing input: the size query answers with the success-class
status `0x40000000`.  `reg_fetch_kvi` and `reg_fetch_ki` return it with a NULL
block; it passes the callers' `NT_SUCCESS` test, and `reg_fetch_sz`,
`reg_fetch_multi_sz`, `reg_fetch_dword` and `reg_fetch_subkeys` go on to read
a field of the NULL block. -/
theorem C18_decoders_dereference_absent_block :
    (let r := reg_fetch_kvi
        (scripted_kernel Arch.amd64 STATUS_OBJECT_NAME_EXISTS 16 STATUS_SUCCESS
          true STATUS_SUCCESS [42, 0, 0, 0]) 1 [78] (boot ())
     NT_SUCCESS r.status = true ∧ r.out = none) ∧
    (let r := reg_fetch_ki
        (scripted_kernel Arch.amd64 STATUS_OBJECT_NAME_EXISTS 16 STATUS_SUCCESS
          true STATUS_SUCCESS [42, 0, 0, 0]) 1 (boot ())
     NT_SUCCESS r.status = true ∧ r.out = none) ∧
    fault_of (reg_fetch_sz
        (scripted_kernel Arch.amd64 STATUS_OBJECT_NAME_EXISTS 16 STATUS_SUCCESS
          true STATUS_SUCCESS [42, 0, 0, 0]) 1 [78] (boot ()))
      = some Fault.null_dereference ∧
    fault_of (reg_fetch_multi_sz
        (scripted_kernel Arch.amd64 STATUS_OBJECT_NAME_EXISTS 16 STATUS_SUCCESS
          true STATUS_SUCCESS [42, 0, 0, 0]) 1 [78] (boot ()))
      = some Fault.null_dereference ∧
    fault_of (reg_fetch_dword
        (scripted_kernel Arch.amd64 STATUS_OBJECT_NAME_EXISTS 16 STATUS_SUCCESS
          true STATUS_SUCCESS [42, 0, 0, 0]) 1 [78] (boot ()))
      = some Fault.null_dereference ∧
    fault_of (reg_fetch_subkeys
        (scripted_kernel Arch.amd64 STATUS_OBJECT_NAME_EXISTS 16 STATUS_SUCCESS
          true STATUS_SUCCESS [42, 0, 0, 0]) 1 (boot ()))
      = some Fault.null_dereference := by
  refine ⟨⟨by decide, rfl⟩, ⟨by decide, rfl⟩, rfl, rfl, rfl, rfl⟩

/-! ## The second pass over a multi-string value -/

/-- C16, at the failing input: the well-formed blob `a 0 0` of one string is
fetched successfully and copied into a string area of 7 code units on amd64
(5 on x86), all zero after the `a`.  In the first round of the second pass
the loop over zero units runs through the end of the area: the pass leaves
the allocation and `reg_fetch_multi_sz` does not return. -/
theorem C16_second_pass_leaves_the_allocation :
    count_strings [97, 0, 0, 0, 0, 0] = Except.ok 2 ∧
    skip_nonzero [97, 0, 0, 0, 0, 0, 0, 0, 0, 0, 0, 0, 0, 0] =
      Except.ok [0, 0, 0, 0, 0, 0, 0, 0, 0, 0, 0, 0] ∧
    skip_zero [0, 0, 0, 0, 0, 0, 0, 0, 0, 0, 0, 0] =
      Except.error Fault.out_of_bounds ∧
    fill_slots 14 2 [97, 0, 0, 0, 0, 0, 0, 0, 0, 0, 0, 0, 0, 0] =
      Except.error Fault.out_of_bounds ∧
    fault_of (reg_fetch_multi_sz
        (logging_kernel Arch.amd64 2 [97, 0, 0, 0, 0, 0] STATUS_SUCCESS)
        1 [78] (boot no_calls)) = some Fault.out_of_bounds ∧
    fault_of (reg_fetch_multi_sz
        (logging_kernel Arch.x86 2 [97, 0, 0, 0, 0, 0] STATUS_SUCCESS)
        1 [78] (boot no_calls)) = some Fault.out_of_bounds := by
  refine ⟨rfl, rfl, rfl, rfl, rfl, rfl⟩

/-! ## The count estimate of `reg_fetch_multi_sz` -/

/-- The first pass over the bytes of 16-bit code units counts the zero units
among them. -/
theorem count_strings_wcs_bytes (units : List WCHAR)
    (h : ∀ c ∈ units, c < 65536) :
    count_strings (wcs_bytes units) = Except.ok (units.count 0) := by
  induction units with
  | nil => rfl
  | cons c rest ih =>
    have hc := h c (List.mem_cons_self c rest)
    have hrest := ih (fun x hx => h x (List.mem_cons_of_mem c hx))
    have hval : c % 256 + 256 * (c / 256 % 256) = c := wchar_of_bytes c hc
    have hbytes : wcs_bytes (c :: rest) =
        (c % 256) :: (c / 256 % 256) :: wcs_bytes rest := by
      simp [wcs_bytes, wchar_bytes]
    rw [hbytes, count_strings, hrest, hval]
    by_cases h0 : c = 0
    · subst h0; simp
    · have h1 : (0 : Nat) ≠ c := fun e => h0 e.symm
      simp [h0, List.count_cons, h1]

/-- The layout of strings of 16-bit units consists of 16-bit units. -/
theorem multi_sz_layout_units (strings : List (List WCHAR))
    (h : ∀ s ∈ strings, ∀ c ∈ s, c ≠ 0 ∧ c < 65536) :
    ∀ c ∈ multi_sz_layout strings, c < 65536 := by
  induction strings with
  | nil =>
    intro c hc
    simp [multi_sz_layout] at hc
    rw [hc]
    decide
  | cons s rest ih =>
    intro c hc
    simp only [multi_sz_layout, List.mem_append, List.mem_singleton] at hc
    rcases hc with (hc | hc) | hc
    · exact (h s (List.mem_cons_self s rest) c hc).2
    · rw [hc]
      decide
    · exact ih (fun x hx => h x (List.mem_cons_of_mem s hx)) c hc

/-- The layout of `k` strings without zero units holds `k + 1` zero units. -/
theorem multi_sz_layout_count_zero (strings : List (List WCHAR))
    (h : ∀ s ∈ strings, ∀ c ∈ s, c ≠ 0 ∧ c < 65536) :
    (multi_sz_layout strings).count 0 = strings.length + 1 := by
  induction strings with
  | nil => rfl
  | cons s rest ih =>
    have hs : s.count 0 = 0 := by
      rw [List.count_eq_zero]
      intro hmem
      exact (h s (List.mem_cons_self s rest) 0 hmem).1 rfl
    have hrest := ih (fun x hx => h x (List.mem_cons_of_mem s hx))
    simp only [multi_sz_layout, List.count_append, hs, hrest, List.length_cons]
    simp
    omega

/-- Reading a value through `reg_fetch_kvi` over a logging kernel with pool
budget left: the block holds the blob, and the request is logged. -/
theorem reg_fetch_kvi_logging (arch : Arch) (budget : Nat) (blob : List UCHAR)
    (status : NTSTATUS) (reg_key : HANDLE) (value_name : List WCHAR)
    (w : KernelLog) (t : List PoolEvent)
    (hbudget : w.requests.length < budget)
    (hsize : KEY_VALUE_PARTIAL_INFORMATION_HEADER + blob.length
      < ULONG_RANGE) :
    reg_fetch_kvi (logging_kernel arch budget blob status) reg_key value_name
        ⟨w, t⟩ =
      ⟨STATUS_SUCCESS,
        some ⟨t.length + 1, KEY_VALUE_PARTIAL_INFORMATION_HEADER + blob.length,
          ⟨REG_MULTI_SZ, blob⟩⟩,
        ⟨⟨w.requests ++ [KEY_VALUE_PARTIAL_INFORMATION_HEADER + blob.length],
            w.writes, w.opened⟩,
          t ++ [PoolEvent.alloc (t.length + 1)
            (KEY_VALUE_PARTIAL_INFORMATION_HEADER + blob.length)]⟩⟩ := by
  have hmod : (KEY_VALUE_PARTIAL_INFORMATION_HEADER + blob.length)
      % ULONG_RANGE = KEY_VALUE_PARTIAL_INFORMATION_HEADER + blob.length :=
    Nat.mod_eq_of_lt hsize
  rw [reg_fetch_kvi_outcome (logging_kernel arch budget blob status) reg_key
    value_name ⟨w, t⟩
    ⟨STATUS_BUFFER_TOO_SMALL, ⟨REG_MULTI_SZ, blob⟩,
      KEY_VALUE_PARTIAL_INFORMATION_HEADER + blob.length, w⟩
    ⟨STATUS_SUCCESS, ⟨REG_MULTI_SZ, blob⟩,
      KEY_VALUE_PARTIAL_INFORMATION_HEADER + blob.length,
      ⟨w.requests ++ [KEY_VALUE_PARTIAL_INFORMATION_HEADER + blob.length],
        w.writes, w.opened⟩⟩
    true
    ⟨w.requests ++ [KEY_VALUE_PARTIAL_INFORMATION_HEADER + blob.length],
      w.writes, w.opened⟩
    rfl
    (by simp only [hmod]; simp [logging_kernel, hbudget])
    rfl]
  simp only [hmod]
  rw [if_neg (by decide), if_neg (by simp),
    if_neg (by simp [NT_SUCCESS_STATUS_SUCCESS])]

/-- C17: for every list of `k` strings of non-zero 16-bit code units whose
decoder allocation has a `ULONG` size, the first pass of `reg_fetch_multi_sz`
over the blob `s1 0 ... sk 0 0` counts `num_strings = k + 1` zero units, so
`k` or `k + 1`, and the decoder requests from the pool `num_strings + 1`
pointer slots followed by the data and a pointer-size padding. -/
theorem C17_count_estimate_and_slots (arch : Arch)
    (strings : List (List WCHAR)) (reg_key : HANDLE) (value_name : List WCHAR)
    (status : NTSTATUS)
    (hwf : ∀ s ∈ strings, ∀ c ∈ s, c ≠ 0 ∧ c < 65536)
    (hsize : (strings.length + 2) * sizeof_LPWSTR arch +
      (wcs_bytes (multi_sz_layout strings)).length + sizeof_LPWSTR arch
        < ULONG_RANGE) :
    ∃ num_strings,
      count_strings (wcs_bytes (multi_sz_layout strings))
        = Except.ok num_strings ∧
      (num_strings = strings.length ∨ num_strings = strings.length + 1) ∧
      ∃ r, reg_fetch_multi_sz
          (logging_kernel arch 1 (wcs_bytes (multi_sz_layout strings)) status)
          reg_key value_name (boot no_calls) = Except.ok r ∧
        r.status = STATUS_INSUFFICIENT_RESOURCES ∧
        r.sys.world.requests =
          [KEY_VALUE_PARTIAL_INFORMATION_HEADER +
              (wcs_bytes (multi_sz_layout strings)).length,
            (num_strings + 1) * sizeof_LPWSTR arch +
              (wcs_bytes (multi_sz_layout strings)).length +
              sizeof_LPWSTR arch] := by
  have hcount : count_strings (wcs_bytes (multi_sz_layout strings))
      = Except.ok (strings.length + 1) := by
    rw [count_strings_wcs_bytes _ (multi_sz_layout_units strings hwf),
      multi_sz_layout_count_zero strings hwf]
  have hp := sizeof_LPWSTR_cases arch
  have hfetch := reg_fetch_kvi_logging arch 1
    (wcs_bytes (multi_sz_layout strings)) status reg_key value_name no_calls []
    (by decide)
    (by
      simp only [KEY_VALUE_PARTIAL_INFORMATION_HEADER, ULONG_RANGE] at hsize ⊢
      rcases hp with hp | hp <;> rw [hp] at hsize <;> omega)
  have hn : (strings.length + 1) % ULONG_RANGE = strings.length + 1 := by
    apply Nat.mod_eq_of_lt
    simp only [ULONG_RANGE] at hsize ⊢
    rcases hp with hp | hp <;> rw [hp] at hsize <;> omega
  have hlen : ((strings.length + 1 + 1) * sizeof_LPWSTR arch +
      (wcs_bytes (multi_sz_layout strings)).length + sizeof_LPWSTR arch)
        % ULONG_RANGE =
      (strings.length + 1 + 1) * sizeof_LPWSTR arch +
      (wcs_bytes (multi_sz_layout strings)).length + sizeof_LPWSTR arch :=
    Nat.mod_eq_of_lt hsize
  have harch : (logging_kernel arch 1 (wcs_bytes (multi_sz_layout strings))
      status).arch = arch := rfl
  have hinside : ¬ (KEY_VALUE_PARTIAL_INFORMATION_HEADER +
        (wcs_bytes (multi_sz_layout strings)).length
          < OFFSET_DataLength + sizeof_ULONG ∨
      KEY_VALUE_PARTIAL_INFORMATION_HEADER +
        (wcs_bytes (multi_sz_layout strings)).length
          < KEY_VALUE_PARTIAL_INFORMATION_HEADER +
            (wcs_bytes (multi_sz_layout strings)).length) := by
    simp only [KEY_VALUE_PARTIAL_INFORMATION_HEADER, OFFSET_DataLength,
      sizeof_ULONG]
    omega
  have hrun : reg_fetch_multi_sz
      (logging_kernel arch 1 (wcs_bytes (multi_sz_layout strings)) status)
      reg_key value_name (boot no_calls) =
      Except.ok ⟨STATUS_INSUFFICIENT_RESOURCES, none,
        ExFreePool
          ⟨⟨[KEY_VALUE_PARTIAL_INFORMATION_HEADER +
                (wcs_bytes (multi_sz_layout strings)).length,
              (strings.length + 1 + 1) * sizeof_LPWSTR arch +
                (wcs_bytes (multi_sz_layout strings)).length +
                sizeof_LPWSTR arch], [], []⟩,
            [PoolEvent.alloc 1 (KEY_VALUE_PARTIAL_INFORMATION_HEADER +
              (wcs_bytes (multi_sz_layout strings)).length)]⟩ 1⟩ := by
    simp only [reg_fetch_multi_sz, boot, hfetch, NT_SUCCESS_STATUS_SUCCESS,
      not_true_eq_false, if_false, hcount, hn, harch,
      KEY_VALUE_PARTIAL_INFORMATION.DataLength, hlen, hinside]
    simp [allocate, logging_kernel, no_calls]
  exact ⟨strings.length + 1, hcount, Or.inr rfl, _, hrun, rfl, rfl⟩

/-- C17 at the witness: the two strings `a` and `bb`, amd64: three zero units
are counted, and the pool is asked for 4 slots, 14 data bytes and 8 bytes of
padding. -/
theorem C17_count_estimate_and_slots_witness :
    ∃ num_strings,
      count_strings [97, 0, 0, 0, 98, 0, 98, 0, 0, 0, 0, 0]
        = Except.ok num_strings ∧
      (num_strings = 2 ∨ num_strings = 2 + 1) ∧
      ∃ r, reg_fetch_multi_sz
          (logging_kernel Arch.amd64 1 [97, 0, 0, 0, 98, 0, 98, 0, 0, 0, 0, 0]
            STATUS_SUCCESS)
          1 [78] (boot no_calls) = Except.ok r ∧
        r.status = STATUS_INSUFFICIENT_RESOURCES ∧
        r.sys.world.requests =
          [12 + 12, (num_strings + 1) * 8 + 12 + 8] :=
  C17_count_estimate_and_slots Arch.amd64 [[97], [98, 98]] 1 [78]
    STATUS_SUCCESS (by decide) (by decide)

/-! ## The buffer built by `reg_store_multi_sz` -/

/-- The length of a string of non-zero units that is followed by a
terminator. -/
theorem wcslen_terminated (s rest : List WCHAR) (h : ∀ c ∈ s, c ≠ 0) :
    wcslen (s ++ 0 :: rest) = s.length := by
  unfold wcslen c_str
  induction s with
  | nil => simp
  | cons c t ih =>
    have hc : c ≠ 0 := h c (List.mem_cons_self c t)
    have := ih (fun x hx => h x (List.mem_cons_of_mem c hx))
    simpa [List.takeWhile, hc] using this

/-- Appending a string of non-zero units at the start of a zeroed destination
of `m` code units with room for it: the string and its terminator are
written and the rest stays zero. -/
theorem RtlStringCbCatW_fresh (pre s : List WCHAR) (m : Nat)
    (hs : ∀ c ∈ s, c ≠ 0) (hroom : s.length + 1 ≤ m)
    (hmax : m ≤ NTSTRSAFE_MAX_CCH) :
    RtlStringCbCatW (pre ++ List.replicate m 0) pre.length (m * sizeof_WCHAR) s
      = pre ++ s ++ [0] ++ List.replicate (m - s.length - 1) 0 := by
  obtain ⟨k, rfl⟩ : ∃ k, m = k + 1 := ⟨m - 1, by omega⟩
  have hdiv : (k + 1) * sizeof_WCHAR / sizeof_WCHAR = k + 1 := by
    simp [sizeof_WCHAR]
  have hdest : ((pre ++ List.replicate (k + 1) 0).drop pre.length).take (k + 1)
      = List.replicate (k + 1) (0 : WCHAR) := by
    simp
  have hlen0 : wcslen (List.replicate (k + 1) (0 : WCHAR)) = 0 := by
    simp [wcslen, c_str, List.replicate_succ]
  have hc : c_str s = s := c_str_of_nonzero s hs
  unfold RtlStringCbCatW
  simp only [hdiv, hdest, hlen0, hc]
  rw [if_neg (by
    simp only [List.length_replicate]
    omega)]
  have htake : s.take (k + 1 - 0 - 1) = s := by
    apply List.take_of_length_le
    omega
  simp only [htake, Nat.add_zero]
  have h1 : (pre ++ List.replicate (k + 1) 0).take pre.length = pre := by simp
  have h2 : (pre ++ List.replicate (k + 1) (0:WCHAR)).drop (pre.length + s.length + 1)
      = List.replicate (k + 1 - s.length - 1) 0 := by
    rw [Nat.add_assoc, List.drop_append]
    simp
    omega
  rw [h1, h2]

/-- The copy loop of `reg_store_multi_sz` over a buffer whose tail of `m`
units is zero and has room: each string is written followed by its
terminator, and the rest of the tail stays zero. -/
theorem reg_store_multi_sz_copy_layout (strings : List (List WCHAR)) :
    ∀ (pre : List WCHAR) (m : Nat),
      (∀ s ∈ strings, ∀ c ∈ s, c ≠ 0) →
      (strings.map (fun s => s.length + 1)).sum + 1 ≤ m →
      m ≤ NTSTRSAFE_MAX_CCH →
      reg_store_multi_sz_copy strings (pre ++ List.replicate m 0) pre.length
          (m * sizeof_WCHAR) =
        pre ++ (strings.map (fun s => s ++ [0])).flatten ++
          List.replicate (m - (strings.map (fun s => s.length + 1)).sum) 0 := by
  induction strings with
  | nil =>
    intro pre m _ _ _
    simp [reg_store_multi_sz_copy]
  | cons s rest ih =>
    intro pre m hwf hroom hmax
    have hs : ∀ c ∈ s, c ≠ 0 := hwf s (List.mem_cons_self s rest)
    have hrest : ∀ x ∈ rest, ∀ c ∈ x, c ≠ 0 :=
      fun x hx => hwf x (List.mem_cons_of_mem s hx)
    simp only [List.map_cons, List.sum_cons] at hroom
    have hcat := RtlStringCbCatW_fresh pre s m hs (by omega) hmax
    have hwl : wcslen ((pre ++ s ++ [0] ++
        List.replicate (m - s.length - 1) 0).drop pre.length) = s.length := by
      have : (pre ++ s ++ [0] ++ List.replicate (m - s.length - 1) 0).drop
          pre.length = s ++ 0 :: List.replicate (m - s.length - 1) 0 := by
        simp
      rw [this]
      exact wcslen_terminated s _ hs
    have hnext := ih (pre ++ s ++ [0]) (m - s.length - 1) hrest (by omega)
      (by omega)
    have hoff : (pre ++ s ++ [0]).length = pre.length + (s.length + 1) := by
      simp
    have hrem : (m - s.length - 1) * sizeof_WCHAR =
        m * sizeof_WCHAR - (s.length + 1) * sizeof_WCHAR := by
      simp only [sizeof_WCHAR]
      omega
    have hdiv : (s.length + 1) * sizeof_WCHAR / sizeof_WCHAR = s.length + 1 := by
      simp [sizeof_WCHAR]
    simp only [reg_store_multi_sz_copy, hcat, hwl, hdiv]
    rw [← hoff, ← hrem, hnext]
    simp only [List.map_cons, List.flatten_cons, List.sum_cons,
      List.append_assoc]
    have hsub : m - s.length - 1 - (rest.map (fun s => s.length + 1)).sum =
        m - (s.length + 1 + (rest.map (fun s => s.length + 1)).sum) := by
      omega
    rw [hsub]

/-- The layout is the strings, each with its terminator, and one more
terminator. -/
theorem multi_sz_layout_eq (strings : List (List WCHAR)) :
    multi_sz_layout strings = (strings.map (fun s => s ++ [0])).flatten ++ [0] := by
  induction strings with
  | nil => rfl
  | cons s rest ih => simp [multi_sz_layout, ih]

/-- The layout has the sum of the string lengths plus terminators, plus one,
code units. -/
theorem multi_sz_layout_length (strings : List (List WCHAR)) :
    (multi_sz_layout strings).length =
      (strings.map (fun s => s.length + 1)).sum + 1 := by
  induction strings with
  | nil => rfl
  | cons s rest ih =>
    simp only [multi_sz_layout, List.length_append, ih, List.map_cons,
      List.sum_cons, List.length_singleton]
    omega

/-- The buffer length `reg_store_multi_sz` computes is the size of the layout
in bytes. -/
theorem reg_store_multi_sz_len_eq (strings : List (List WCHAR))
    (hwf : ∀ s ∈ strings, ∀ c ∈ s, c ≠ 0) :
    reg_store_multi_sz_len strings =
      (multi_sz_layout strings).length * sizeof_WCHAR := by
  induction strings with
  | nil => rfl
  | cons s rest ih =>
    have hs : wcslen s = s.length := by
      unfold wcslen
      rw [c_str_of_nonzero s (hwf s (List.mem_cons_self s rest))]
    have hrest := ih (fun x hx => hwf x (List.mem_cons_of_mem s hx))
    simp only [reg_store_multi_sz_len, hs, hrest, multi_sz_layout,
      List.length_append, List.length_singleton, sizeof_WCHAR]
    omega

/-- The buffer `reg_store_multi_sz` builds is the layout. -/
theorem reg_store_multi_sz_buffer (strings : List (List WCHAR))
    (hwf : ∀ s ∈ strings, ∀ c ∈ s, c ≠ 0)
    (hsize : (multi_sz_layout strings).length * sizeof_WCHAR < ULONG_RANGE) :
    reg_store_multi_sz_copy strings
        (List.replicate (reg_store_multi_sz_len strings / sizeof_WCHAR) 0) 0
        (reg_store_multi_sz_len strings) = multi_sz_layout strings := by
  have hlen := reg_store_multi_sz_len_eq strings hwf
  have hl := multi_sz_layout_length strings
  have hdiv : (multi_sz_layout strings).length * sizeof_WCHAR / sizeof_WCHAR
      = (multi_sz_layout strings).length := by
    simp [sizeof_WCHAR]
  have h := reg_store_multi_sz_copy_layout strings []
    (multi_sz_layout strings).length hwf (by omega)
    (by
      simp only [sizeof_WCHAR, ULONG_RANGE] at hsize
      simp only [NTSTRSAFE_MAX_CCH]
      omega)
  simp only [List.nil_append, List.length_nil] at h
  rw [hlen, hdiv, h]
  have hone : (multi_sz_layout strings).length -
      (strings.map (fun s => s.length + 1)).sum = 1 := by omega
  rw [hone, multi_sz_layout_eq]
  rfl

/-- C13: for every list of strings without zero code units whose layout has a
`ULONG` size in bytes, once the buffer allocation succeeds the one store
write of `reg_store_multi_sz` carries the type tag multi-string, the bytes of
exactly `s1 0 s2 0 ... sn 0 0` and that layout's size as the declared length,
which is the sum over the strings of length plus one, plus one, code units. -/
theorem C13_multi_sz_encoding_layout (arch : Arch)
    (strings : List (List WCHAR)) (reg_key : HANDLE) (value_name : List WCHAR)
    (status : NTSTATUS)
    (hwf : ∀ s ∈ strings, ∀ c ∈ s, c ≠ 0)
    (hsize : (multi_sz_layout strings).length * sizeof_WCHAR < ULONG_RANGE) :
    (reg_store_multi_sz (logging_kernel arch 1 [] status) reg_key value_name
        strings (boot no_calls)).sys.world.writes =
      [⟨reg_key, value_name, REG_MULTI_SZ,
        wcs_bytes (multi_sz_layout strings),
        (multi_sz_layout strings).length * sizeof_WCHAR⟩] ∧
    (multi_sz_layout strings).length =
      (strings.map (fun s => s.length + 1)).sum + 1 := by
  refine ⟨?_, multi_sz_layout_length strings⟩
  have hbuf := reg_store_multi_sz_buffer strings hwf hsize
  have hlen := reg_store_multi_sz_len_eq strings hwf
  have hmod : (multi_sz_layout strings).length * sizeof_WCHAR % ULONG_RANGE
      = (multi_sz_layout strings).length * sizeof_WCHAR :=
    Nat.mod_eq_of_lt hsize
  have htake : (wcs_bytes (multi_sz_layout strings)).take
      ((multi_sz_layout strings).length * sizeof_WCHAR)
      = wcs_bytes (multi_sz_layout strings) := by
    apply List.take_of_length_le
    rw [wcs_bytes_length]
    exact le_refl _
  have halloc : allocate (logging_kernel arch 1 [] status) (boot no_calls)
      (reg_store_multi_sz_len strings) =
      (some 1, ⟨⟨[reg_store_multi_sz_len strings], [], []⟩,
        [PoolEvent.alloc 1 (reg_store_multi_sz_len strings)]⟩) := rfl
  simp only [reg_store_multi_sz, halloc, hbuf]
  simp only [hlen, hmod, htake]
  rfl

/-- C13 at the witness: the strings `a`, `bb` and the empty string. -/
theorem C13_multi_sz_encoding_layout_witness :
    (reg_store_multi_sz (logging_kernel Arch.amd64 1 [] STATUS_SUCCESS) 1 [78]
        [[97], [98, 98], []] (boot no_calls)).sys.world.writes =
      [⟨1, [78], REG_MULTI_SZ,
        [97, 0, 0, 0, 98, 0, 98, 0, 0, 0, 0, 0, 0, 0], 7 * 2⟩] ∧
    (7 : Nat) = (2 + 3 + 1) + 1 :=
  C13_multi_sz_encoding_layout Arch.amd64 [[97], [98, 98], []] 1 [78]
    STATUS_SUCCESS (by decide) (by decide)

/-! ## Pool discipline of every operation -/

/-- Replaying two runs of events in a row. -/
theorem pool_live_append (first second : List PoolEvent) :
    ∀ live, pool_live (first ++ second) live =
      (pool_live first live).bind (pool_live second) := by
  induction first with
  | nil => intro live; rfl
  | cons e rest ih =>
    intro live
    cases e with
    | alloc addr size =>
      simp only [List.cons_append, pool_live]
      split_ifs
      · rfl
      · exact ih _
    | free addr =>
      simp only [List.cons_append, pool_live]
      split_ifs
      · exact ih _
      · rfl
    | visit addr =>
      simp only [List.cons_append, pool_live]
      split_ifs
      · exact ih _
      · rfl

/-- A call that leaves the trace as it is keeps the pool balanced. -/
theorem pool_balanced_refl (trace : List PoolEvent) :
    pool_balanced trace trace [] :=
  ⟨[], by simp, rfl⟩

/-- A balanced call followed by further events. -/
theorem pool_balanced_append (before after : List PoolEvent)
    (kept kept1 : List Nat) (more : List PoolEvent)
    (h : pool_balanced before after kept)
    (hmore : pool_live more kept = some kept1) :
    pool_balanced before (after ++ more) kept1 := by
  obtain ⟨events, hev, hlive⟩ := h
  refine ⟨events ++ more, by rw [hev, List.append_assoc], ?_⟩
  rw [pool_live_append, hlive]
  exact hmore

/-- Two balanced calls in a row, the first keeping nothing. -/
theorem pool_balanced_trans (t0 t1 t2 : List PoolEvent) (kept : List Nat)
    (h1 : pool_balanced t0 t1 []) (h2 : pool_balanced t1 t2 kept) :
    pool_balanced t0 t2 kept := by
  obtain ⟨e1, he1, hl1⟩ := h1
  obtain ⟨e2, he2, hl2⟩ := h2
  refine ⟨e1 ++ e2, by rw [he2, he1, List.append_assoc], ?_⟩
  rw [pool_live_append, hl1]
  exact hl2

/-- Pool discipline of the four paths of the sized query protocol. -/
theorem sized_query_pool {α W : Type} (trace : List PoolEvent)
    (q1 q2 : NTSTATUS) (alloc_ok : Bool) (len : Nat) (info : α)
    (w1 w2 w3 : W) (r : Fetched α W)
    (hr : r =
      if ¬ (q1 = STATUS_SUCCESS ∨ q1 = STATUS_BUFFER_OVERFLOW ∨
          q1 = STATUS_BUFFER_TOO_SMALL) then
        ⟨q1, none, ⟨w1, trace⟩⟩
      else if alloc_ok = false then
        ⟨STATUS_INSUFFICIENT_RESOURCES, none, ⟨w2, trace⟩⟩
      else if NT_SUCCESS q2 = false then
        ⟨q2, some ⟨trace.length + 1, len, info⟩,
          ⟨w3, trace ++ [PoolEvent.alloc (trace.length + 1) len,
            PoolEvent.free (trace.length + 1)]⟩⟩
      else
        ⟨STATUS_SUCCESS, some ⟨trace.length + 1, len, info⟩,
          ⟨w3, trace ++ [PoolEvent.alloc (trace.length + 1) len]⟩⟩) :
    pool_balanced trace r.sys.trace (owned_by_caller r.status r.out) ∧
    (NT_SUCCESS r.status = true → ∀ b, r.out = some b →
      b.addr = trace.length + 1 ∧
      r.sys.trace = trace ++ [PoolEvent.alloc (trace.length + 1) b.size]) := by
  by_cases h1 : q1 = STATUS_SUCCESS ∨ q1 = STATUS_BUFFER_OVERFLOW ∨
      q1 = STATUS_BUFFER_TOO_SMALL
  · rw [if_neg (not_not.mpr h1)] at hr
    cases alloc_ok with
    | false =>
      rw [if_pos rfl] at hr
      subst hr
      refine ⟨⟨[], by simp, ?_⟩, ?_⟩
      · have : NT_SUCCESS STATUS_INSUFFICIENT_RESOURCES = false := by decide
        simp [owned_by_caller, pool_live, this]
      · intro _ b hb
        cases hb
    | true =>
      rw [if_neg (by simp)] at hr
      by_cases h2 : NT_SUCCESS q2 = false
      · rw [if_pos h2] at hr
        subst hr
        refine ⟨⟨_, rfl, ?_⟩, ?_⟩
        · simp [owned_by_caller, pool_live, h2]
        · intro hs
          simp only [h2] at hs
          cases hs
      · rw [if_neg h2] at hr
        subst hr
        refine ⟨⟨_, rfl, ?_⟩, ?_⟩
        · simp [owned_by_caller, pool_live, NT_SUCCESS_STATUS_SUCCESS]
        · intro _ b hb
          simp only [Option.some.injEq] at hb
          subst hb
          exact ⟨rfl, rfl⟩
  · rw [if_pos h1] at hr
    subst hr
    refine ⟨⟨[], by simp, ?_⟩, ?_⟩
    · simp [owned_by_caller, pool_live]
    · intro _ b hb
      cases hb

/-- Pool discipline of `reg_fetch_ki`; on success the block is the one
allocation of the call. -/
theorem reg_fetch_ki_pool {W : Type} (K : Kernel W) (reg_key : HANDLE)
    (s : Sys W) :
    pool_balanced s.trace (reg_fetch_ki K reg_key s).sys.trace
      (owned_by_caller (reg_fetch_ki K reg_key s).status
        (reg_fetch_ki K reg_key s).out) ∧
    (NT_SUCCESS (reg_fetch_ki K reg_key s).status = true →
      ∀ b, (reg_fetch_ki K reg_key s).out = some b →
        b.addr = s.trace.length + 1 ∧
        (reg_fetch_ki K reg_key s).sys.trace =
          s.trace ++ [PoolEvent.alloc (s.trace.length + 1) b.size]) :=
  sized_query_pool s.trace _ _ _ _ _ _ _ _ _
    (reg_fetch_ki_outcome K reg_key s _ _
      (K.ExAllocatePoolWithTag _ _).1 (K.ExAllocatePoolWithTag _ _).2
      rfl rfl rfl)

/-- Pool discipline of `reg_fetch_subkey`; on success the block is the one
allocation of the call. -/
theorem reg_fetch_subkey_pool {W : Type} (K : Kernel W) (reg_key : HANDLE)
    (index : Nat) (s : Sys W) :
    pool_balanced s.trace (reg_fetch_subkey K reg_key index s).sys.trace
      (owned_by_caller (reg_fetch_subkey K reg_key index s).status
        (reg_fetch_subkey K reg_key index s).out) ∧
    (NT_SUCCESS (reg_fetch_subkey K reg_key index s).status = true →
      ∀ b, (reg_fetch_subkey K reg_key index s).out = some b →
        b.addr = s.trace.length + 1 ∧
        (reg_fetch_subkey K reg_key index s).sys.trace =
          s.trace ++ [PoolEvent.alloc (s.trace.length + 1) b.size]) :=
  sized_query_pool s.trace _ _ _ _ _ _ _ _ _
    (reg_fetch_subkey_outcome K reg_key index s _ _
      (K.ExAllocatePoolWithTag _ _).1 (K.ExAllocatePoolWithTag _ _).2
      rfl rfl rfl)

/-- Pool discipline of `reg_fetch_kvi`; on success the block is the one
allocation of the call. -/
theorem reg_fetch_kvi_pool {W : Type} (K : Kernel W) (reg_key : HANDLE)
    (value_name : List WCHAR) (s : Sys W) :
    pool_balanced s.trace (reg_fetch_kvi K reg_key value_name s).sys.trace
      (owned_by_caller (reg_fetch_kvi K reg_key value_name s).status
        (reg_fetch_kvi K reg_key value_name s).out) ∧
    (NT_SUCCESS (reg_fetch_kvi K reg_key value_name s).status = true →
      ∀ b, (reg_fetch_kvi K reg_key value_name s).out = some b →
        b.addr = s.trace.length + 1 ∧
        (reg_fetch_kvi K reg_key value_name s).sys.trace =
          s.trace ++ [PoolEvent.alloc (s.trace.length + 1) b.size]) :=
  sized_query_pool s.trace _ _ _ _ _ _ _ _ _
    (reg_fetch_kvi_outcome K reg_key value_name s _ _
      (K.ExAllocatePoolWithTag _ _).1 (K.ExAllocatePoolWithTag _ _).2
      rfl rfl rfl)

/-- Pool discipline of `reg_fetch_sz` on every return. -/
theorem reg_fetch_sz_pool {W : Type} (K : Kernel W) (reg_key : HANDLE)
    (value_name : List WCHAR) (s : Sys W) (r : Fetched (List UCHAR) W)
    (hr : reg_fetch_sz K reg_key value_name s = Except.ok r) :
    pool_balanced s.trace r.sys.trace (owned_by_caller r.status r.out) := by
  obtain ⟨hbal, hsucc⟩ := reg_fetch_kvi_pool K reg_key value_name s
  unfold reg_fetch_sz at hr
  simp only [] at hr
  generalize reg_fetch_kvi K reg_key value_name s = f at hr hbal hsucc
  by_cases hst : NT_SUCCESS f.status = true
  · simp only [hst, not_true_eq_false, if_false] at hr
    cases hout : f.out with
    | none =>
      rw [hout] at hr
      cases hr
    | some kvi =>
      rw [hout] at hr
      simp only [] at hr
      obtain ⟨haddr, htrace⟩ := hsucc hst kvi hout
      have hkept : owned_by_caller f.status f.out = [kvi.addr] := by
        simp [owned_by_caller, hst, hout]
      rw [hkept] at hbal
      have hne : ¬ f.sys.trace.length + 1 = kvi.addr := by
        rw [htrace, haddr]
        simp
      by_cases hfield : kvi.size < OFFSET_DataLength + sizeof_ULONG
      · simp only [hfield, if_true] at hr
        cases hr
      simp only [hfield, if_false] at hr
      unfold allocate at hr
      simp only [] at hr
      by_cases ha : (K.ExAllocatePoolWithTag f.sys.world
          ((kvi.val.DataLength + sizeof_LPWSTR K.arch) % ULONG_RANGE)).1 = true
      · simp only [ha, if_true] at hr
        by_cases hdata : kvi.size <
            KEY_VALUE_PARTIAL_INFORMATION_HEADER + kvi.val.DataLength
        · simp only [hdata, if_true] at hr
          cases hr
        simp only [hdata, if_false] at hr
        split at hr
        · cases hr
        · cases hr
          have := pool_balanced_append s.trace f.sys.trace [kvi.addr]
            [f.sys.trace.length + 1]
            [PoolEvent.alloc (f.sys.trace.length + 1)
              ((kvi.val.DataLength + sizeof_LPWSTR K.arch) % ULONG_RANGE),
             PoolEvent.free kvi.addr] hbal
            (by simp [pool_live, hne])
          simpa [ExFreePool, owned_by_caller, hst] using this
      · simp only [ha, Bool.false_eq_true, if_false] at hr
        cases hr
        have := pool_balanced_append s.trace f.sys.trace [kvi.addr] []
          [PoolEvent.free kvi.addr] hbal (by simp [pool_live])
        have hins : NT_SUCCESS STATUS_INSUFFICIENT_RESOURCES = false := by
          decide
        simpa [ExFreePool, owned_by_caller, hins] using this
  · simp only [hst, not_false_eq_true, if_true] at hr
    cases hr
    simpa [owned_by_caller, hst] using hbal

/-- Pool discipline of `reg_fetch_subkey_name` on every return. -/
theorem reg_fetch_subkey_name_pool {W : Type} (K : Kernel W) (reg_key : HANDLE)
    (index : Nat) (s : Sys W) (r : Fetched (List UCHAR) W)
    (hr : reg_fetch_subkey_name K reg_key index s = Except.ok r) :
    pool_balanced s.trace r.sys.trace (owned_by_caller r.status r.out) := by
  obtain ⟨hbal, hsucc⟩ := reg_fetch_subkey_pool K reg_key index s
  unfold reg_fetch_subkey_name at hr
  simp only [] at hr
  generalize reg_fetch_subkey K reg_key index s = f at hr hbal hsucc
  by_cases hst : NT_SUCCESS f.status = true
  · simp only [hst, not_true_eq_false, if_false] at hr
    cases hout : f.out with
    | none =>
      rw [hout] at hr
      cases hr
    | some ki =>
      rw [hout] at hr
      simp only [] at hr
      obtain ⟨haddr, htrace⟩ := hsucc hst ki hout
      have hkept : owned_by_caller f.status f.out = [ki.addr] := by
        simp [owned_by_caller, hst, hout]
      rw [hkept] at hbal
      have hne : ¬ f.sys.trace.length + 1 = ki.addr := by
        rw [htrace, haddr]
        simp
      by_cases hfield : ki.size < OFFSET_NameLength + sizeof_ULONG
      · simp only [hfield, if_true] at hr
        cases hr
      simp only [hfield, if_false] at hr
      unfold allocate at hr
      simp only [] at hr
      by_cases ha : (K.ExAllocatePoolWithTag f.sys.world
          ((ki.val.NameLength + sizeof_LPWSTR K.arch) % ULONG_RANGE)).1 = true
      · simp only [ha, if_true] at hr
        by_cases hdata : ki.size <
            KEY_BASIC_INFORMATION_HEADER + ki.val.NameLength
        · simp only [hdata, if_true] at hr
          cases hr
        simp only [hdata, if_false] at hr
        split at hr
        · cases hr
        · cases hr
          have := pool_balanced_append s.trace f.sys.trace [ki.addr]
            [f.sys.trace.length + 1]
            [PoolEvent.alloc (f.sys.trace.length + 1)
              ((ki.val.NameLength + sizeof_LPWSTR K.arch) % ULONG_RANGE),
             PoolEvent.free ki.addr] hbal
            (by simp [pool_live, hne])
          simpa [ExFreePool, owned_by_caller, hst] using this
      · simp only [ha, Bool.false_eq_true, if_false] at hr
        cases hr
        have := pool_balanced_append s.trace f.sys.trace [ki.addr] []
          [PoolEvent.free ki.addr] hbal (by simp [pool_live])
        have hins : NT_SUCCESS STATUS_INSUFFICIENT_RESOURCES = false := by
          decide
        simpa [ExFreePool, owned_by_caller, hins] using this
  · simp only [hst, not_false_eq_true, if_true] at hr
    cases hr
    simpa [owned_by_caller, hst] using hbal

/-- Pool discipline of `reg_fetch_subkeys` on every return. -/
theorem reg_fetch_subkeys_pool {W : Type} (K : Kernel W) (reg_key : HANDLE)
    (s : Sys W) (r : Ret Nat W)
    (hr : reg_fetch_subkeys K reg_key s = Except.ok r) :
    pool_balanced s.trace r.sys.trace [] := by
  obtain ⟨hbal, _⟩ := reg_fetch_ki_pool K reg_key s
  unfold reg_fetch_subkeys at hr
  simp only [] at hr
  generalize reg_fetch_ki K reg_key s = f at hr hbal
  by_cases hst : NT_SUCCESS f.status = true
  · simp only [hst, not_true_eq_false, if_false] at hr
    cases hout : f.out with
    | none =>
      rw [hout] at hr
      cases hr
    | some ki =>
      rw [hout] at hr
      simp only [] at hr
      by_cases hfield : ki.size < OFFSET_SubKeys + sizeof_ULONG
      · simp only [hfield, if_true] at hr
        cases hr
      simp only [hfield, if_false] at hr
      cases hr
      have hkept : owned_by_caller f.status f.out = [ki.addr] := by
        simp [owned_by_caller, hst, hout]
      rw [hkept] at hbal
      have := pool_balanced_append s.trace f.sys.trace [ki.addr] []
        [PoolEvent.free ki.addr] hbal (by simp [pool_live])
      simpa [ExFreePool] using this
  · simp only [hst, not_false_eq_true, if_true] at hr
    cases hr
    simpa [owned_by_caller, hst] using hbal

/-- Pool discipline of `reg_fetch_dword` on every return. -/
theorem reg_fetch_dword_pool {W : Type} (K : Kernel W) (reg_key : HANDLE)
    (value_name : List WCHAR) (s : Sys W) (r : Ret Nat W)
    (hr : reg_fetch_dword K reg_key value_name s = Except.ok r) :
    pool_balanced s.trace r.sys.trace [] := by
  obtain ⟨hbal, _⟩ := reg_fetch_kvi_pool K reg_key value_name s
  unfold reg_fetch_dword at hr
  simp only [] at hr
  generalize reg_fetch_kvi K reg_key value_name s = f at hr hbal
  by_cases hst : NT_SUCCESS f.status = true
  · simp only [hst, not_true_eq_false, if_false] at hr
    cases hout : f.out with
    | none =>
      rw [hout] at hr
      cases hr
    | some kvi =>
      rw [hout] at hr
      simp only [] at hr
      have hkept : owned_by_caller f.status f.out = [kvi.addr] := by
        simp [owned_by_caller, hst, hout]
      rw [hkept] at hbal
      have hfree := pool_balanced_append s.trace f.sys.trace [kvi.addr] []
        [PoolEvent.free kvi.addr] hbal (by simp [pool_live])
      by_cases hfield : kvi.size < OFFSET_DataLength + sizeof_ULONG
      · simp only [hfield, if_true] at hr
        cases hr
      simp only [hfield, if_false] at hr
      by_cases hlen : kvi.val.DataLength ≠ sizeof_ULONG
      · rw [if_pos hlen] at hr
        cases hr
        simpa [ExFreePool] using hfree
      rw [if_neg hlen] at hr
      by_cases hdata : kvi.size <
          KEY_VALUE_PARTIAL_INFORMATION_HEADER + sizeof_ULONG
      · simp only [hdata, if_true] at hr
        cases hr
      simp only [hdata, if_false] at hr
      split at hr
      · cases hr
      · cases hr
        simpa [ExFreePool] using hfree
  · simp only [hst, not_false_eq_true, if_true] at hr
    cases hr
    simpa [owned_by_caller, hst] using hbal

/-- Pool discipline of `reg_fetch_multi_sz` on every return. -/
theorem reg_fetch_multi_sz_pool {W : Type} (K : Kernel W) (reg_key : HANDLE)
    (value_name : List WCHAR) (s : Sys W) (r : Fetched MULTI_SZ W)
    (hr : reg_fetch_multi_sz K reg_key value_name s = Except.ok r) :
    pool_balanced s.trace r.sys.trace (owned_by_caller r.status r.out) := by
  obtain ⟨hbal, hsucc⟩ := reg_fetch_kvi_pool K reg_key value_name s
  unfold reg_fetch_multi_sz at hr
  simp only [] at hr
  generalize reg_fetch_kvi K reg_key value_name s = f at hr hbal hsucc
  by_cases hst : NT_SUCCESS f.status = true
  · simp only [hst, not_true_eq_false, if_false] at hr
    cases hout : f.out with
    | none =>
      rw [hout] at hr
      cases hr
    | some kvi =>
      rw [hout] at hr
      simp only [] at hr
      obtain ⟨haddr, htrace⟩ := hsucc hst kvi hout
      have hkept : owned_by_caller f.status f.out = [kvi.addr] := by
        simp [owned_by_caller, hst, hout]
      rw [hkept] at hbal
      have hne : ¬ f.sys.trace.length + 1 = kvi.addr := by
        rw [htrace, haddr]
        simp
      by_cases hinside : kvi.size < OFFSET_DataLength + sizeof_ULONG ∨
          kvi.size <
            KEY_VALUE_PARTIAL_INFORMATION_HEADER + kvi.val.DataLength
      · simp only [hinside, if_true] at hr
        cases hr
      simp only [hinside, if_false] at hr
      cases hcount : count_strings kvi.val.Data with
      | error e =>
        rw [hcount] at hr
        cases hr
      | ok counted =>
        rw [hcount] at hr
        simp only [] at hr
        unfold allocate at hr
        simp only [] at hr
        split at hr
        · rename_i hnone
          split_ifs at hnone with ha
          cases hr
          have := pool_balanced_append s.trace f.sys.trace [kvi.addr] []
            [PoolEvent.free kvi.addr] hbal (by simp [pool_live])
          have hins : NT_SUCCESS STATUS_INSUFFICIENT_RESOURCES = false := by
            decide
          simpa [ExFreePool, owned_by_caller, hins, ha] using this
        · rename_i addr hsome
          split_ifs at hsome with ha
          simp only [Option.some.injEq] at hsome
          subst hsome
          split at hr
          · cases hr
          · split at hr
            · cases hr
            · split at hr
              · cases hr
              · cases hr
                have := pool_balanced_append s.trace f.sys.trace [kvi.addr]
                  [f.sys.trace.length + 1]
                  [PoolEvent.alloc (f.sys.trace.length + 1)
                    (((counted % ULONG_RANGE + 1) * sizeof_LPWSTR K.arch +
                      kvi.val.DataLength + sizeof_LPWSTR K.arch)
                        % ULONG_RANGE),
                   PoolEvent.free kvi.addr] hbal
                  (by simp [pool_live, hne])
                simpa [ExFreePool, owned_by_caller, hst, ha] using this
  · simp only [hst, not_false_eq_true, if_true] at hr
    cases hr
    simpa [owned_by_caller, hst] using hbal

/-- Pool discipline of `reg_store_multi_sz`. -/
theorem reg_store_multi_sz_pool {W : Type} (K : Kernel W) (reg_key : HANDLE)
    (value_name : List WCHAR) (strings : List (List WCHAR)) (s : Sys W) :
    pool_balanced s.trace
      (reg_store_multi_sz K reg_key value_name strings s).sys.trace [] := by
  unfold reg_store_multi_sz allocate
  simp only []
  by_cases ha : (K.ExAllocatePoolWithTag s.world
      (reg_store_multi_sz_len strings)).1 = true
  · simp only [ha, if_true]
    exact ⟨_, by simp [ExFreePool]; rfl, by simp [pool_live]⟩
  · simp only [ha, Bool.false_eq_true, if_false]
    exact pool_balanced_refl _

/-- Pool discipline of `reg_open` on every return. -/
theorem reg_open_pool {W : Type} (K : Kernel W)
    (key_name_parts : List (List WCHAR)) (garbage : Nat → WCHAR) (s : Sys W)
    (r : Ret HANDLE W)
    (hr : reg_open K key_name_parts garbage s = Except.ok r) :
    pool_balanced s.trace r.sys.trace [] := by
  unfold reg_open allocate at hr
  simp only [] at hr
  by_cases ha : (K.ExAllocatePoolWithTag s.world
      (reg_open_len key_name_parts)).1 = true
  · simp only [ha, if_true] at hr
    split at hr
    · cases hr
    · split at hr
      · cases hr
      · cases hr
        exact ⟨_, by simp [ExFreePool]; rfl, by simp [pool_live]⟩
  · simp only [ha, Bool.false_eq_true, if_false] at hr
    cases hr
    exact pool_balanced_refl _

/-- Pool discipline of the loop of `reg_enum_subkeys` on every return: each
resolved name is handed to the visitor while live and released after it. -/
theorem reg_enum_subkeys_loop_pool {W σ : Type} (K : Kernel W)
    (callback : σ → Option (List UCHAR) → NTSTATUS × σ) (reg_key : HANDLE) :
    ∀ (remaining index : Nat) (status : NTSTATUS) (opaque_state : σ)
      (visits : List (Option (List UCHAR))) (s : Sys W) (r : EnumRet σ W),
      reg_enum_subkeys_loop K callback reg_key remaining index status
        opaque_state visits s = Except.ok r →
      pool_balanced s.trace r.sys.trace [] := by
  intro remaining
  induction remaining with
  | zero =>
    intro index status opaque_state visits s r hr
    simp only [reg_enum_subkeys_loop] at hr
    cases hr
    exact pool_balanced_refl _
  | succ rem ih =>
    intro index status opaque_state visits s r hr
    simp only [reg_enum_subkeys_loop] at hr
    cases hname : reg_fetch_subkey_name K reg_key index s with
    | error e =>
      rw [hname] at hr
      cases hr
    | ok f =>
      rw [hname] at hr
      simp only [] at hr
      have hbal := reg_fetch_subkey_name_pool K reg_key index s f hname
      by_cases hst : NT_SUCCESS f.status = true
      · simp only [hst, not_true_eq_false, if_false] at hr
        cases hout : f.out with
        | none =>
          rw [hout] at hr
          simp only [] at hr
          split_ifs at hr
          · cases hr
            simpa [owned_by_caller, hst, hout] using hbal
        | some b =>
          rw [hout] at hr
          simp only [] at hr
          have hkept : owned_by_caller f.status f.out = [b.addr] := by
            simp [owned_by_caller, hst, hout]
          rw [hkept] at hbal
          have hround := pool_balanced_append s.trace f.sys.trace [b.addr] []
            [PoolEvent.visit b.addr, PoolEvent.free b.addr] hbal
            (by simp [pool_live])
          split_ifs at hr
          · have hrest := ih _ _ _ _ _ _ hr
            refine pool_balanced_trans s.trace _ r.sys.trace [] ?_ hrest
            simpa [ExFreePool, hand_over] using hround
          · cases hr
            simpa [ExFreePool, hand_over] using hround
      · simp only [hst, not_false_eq_true, if_true] at hr
        cases hr
        simpa [owned_by_caller, hst] using hbal

/-- Pool discipline of `reg_enum_subkeys` on every return. -/
theorem reg_enum_subkeys_pool {W σ : Type} (K : Kernel W) (reg_key : HANDLE)
    (callback : σ → Option (List UCHAR) → NTSTATUS × σ) (opaque_state : σ)
    (s : Sys W) (r : EnumRet σ W)
    (hr : reg_enum_subkeys K reg_key callback opaque_state s = Except.ok r) :
    pool_balanced s.trace r.sys.trace [] := by
  unfold reg_enum_subkeys at hr
  cases hcount : reg_fetch_subkeys K reg_key s with
  | error e =>
    rw [hcount] at hr
    cases hr
  | ok c =>
    rw [hcount] at hr
    simp only [] at hr
    have hbal := reg_fetch_subkeys_pool K reg_key s c hcount
    split_ifs at hr
    · exact pool_balanced_trans s.trace c.sys.trace r.sys.trace [] hbal
        (reg_enum_subkeys_loop_pool K callback reg_key _ _ _ _ _ _ r hr)
    · cases hr
      exact hbal

/-- C15: exactly-once release.  For every kernel and every operation of the
file, on every return the pool events of the call replay cleanly from no live
block: each block allocated during the call is released exactly once, none is
released or handed to the visitor while not live, and the only block left live
is the one a successful fetch hands to its caller.  In `reg_enum_subkeys` each
resolved name is handed to the visitor while live and released afterwards,
whatever the visitor returns. -/
theorem C15_exactly_once_release {W σ : Type} (K : Kernel W)
    (reg_key : HANDLE) (value_name value : List WCHAR) (index dword : Nat)
    (strings key_name_parts : List (List WCHAR)) (garbage : Nat → WCHAR)
    (callback : σ → Option (List UCHAR) → NTSTATUS × σ) (opaque_state : σ)
    (s : Sys W) :
    pool_balanced s.trace (reg_fetch_ki K reg_key s).sys.trace
      (owned_by_caller (reg_fetch_ki K reg_key s).status
        (reg_fetch_ki K reg_key s).out) ∧
    pool_balanced s.trace (reg_fetch_subkey K reg_key index s).sys.trace
      (owned_by_caller (reg_fetch_subkey K reg_key index s).status
        (reg_fetch_subkey K reg_key index s).out) ∧
    pool_balanced s.trace (reg_fetch_kvi K reg_key value_name s).sys.trace
      (owned_by_caller (reg_fetch_kvi K reg_key value_name s).status
        (reg_fetch_kvi K reg_key value_name s).out) ∧
    (∀ r, reg_fetch_subkeys K reg_key s = Except.ok r →
      pool_balanced s.trace r.sys.trace []) ∧
    (∀ r, reg_fetch_subkey_name K reg_key index s = Except.ok r →
      pool_balanced s.trace r.sys.trace (owned_by_caller r.status r.out)) ∧
    (∀ r, reg_enum_subkeys K reg_key callback opaque_state s = Except.ok r →
      pool_balanced s.trace r.sys.trace []) ∧
    (∀ r, reg_fetch_sz K reg_key value_name s = Except.ok r →
      pool_balanced s.trace r.sys.trace (owned_by_caller r.status r.out)) ∧
    (∀ r, reg_fetch_multi_sz K reg_key value_name s = Except.ok r →
      pool_balanced s.trace r.sys.trace (owned_by_caller r.status r.out)) ∧
    (∀ r, reg_fetch_dword K reg_key value_name s = Except.ok r →
      pool_balanced s.trace r.sys.trace []) ∧
    (reg_store_sz K reg_key value_name value s).sys.trace = s.trace ∧
    pool_balanced s.trace
      (reg_store_multi_sz K reg_key value_name strings s).sys.trace [] ∧
    (reg_store_dword K reg_key value_name dword s).sys.trace = s.trace ∧
    (∀ r, reg_open K key_name_parts garbage s = Except.ok r →
      pool_balanced s.trace r.sys.trace []) ∧
    (reg_close K reg_key s).trace = s.trace := by
  refine ⟨(reg_fetch_ki_pool K reg_key s).1,
    (reg_fetch_subkey_pool K reg_key index s).1,
    (reg_fetch_kvi_pool K reg_key value_name s).1,
    reg_fetch_subkeys_pool K reg_key s,
    reg_fetch_subkey_name_pool K reg_key index s,
    reg_enum_subkeys_pool K reg_key callback opaque_state s,
    reg_fetch_sz_pool K reg_key value_name s,
    reg_fetch_multi_sz_pool K reg_key value_name s,
    reg_fetch_dword_pool K reg_key value_name s,
    ?_,
    reg_store_multi_sz_pool K reg_key value_name strings s,
    ?_,
    reg_open_pool K key_name_parts garbage s,
    rfl⟩
  · unfold reg_store_sz
    simp only []
    split_ifs <;> rfl
  · unfold reg_store_dword
    simp only []
    split_ifs <;> rfl

/-- C15 at the witness: enumerating five children with a visitor that fails
on its second call.  The key information block 1 is released; in each of the
two rounds the subkey information block is released, and the name is handed
to the visitor and then released, also in the round where the visitor
fails. -/
theorem C15_exactly_once_release_witness :
    pool_balanced []
      [PoolEvent.alloc 1 44, PoolEvent.free 1,
       PoolEvent.alloc 3 18, PoolEvent.alloc 4 10, PoolEvent.free 3,
       PoolEvent.visit 4, PoolEvent.free 4,
       PoolEvent.alloc 8 18, PoolEvent.alloc 9 10, PoolEvent.free 8,
       PoolEvent.visit 9, PoolEvent.free 9] [] :=
  (C15_exactly_once_release (registry_kernel Arch.amd64) 1 [78] [] 0 0 [] []
    (fun _ => 0) fail_on_second_call 0
    (boot (one_key five_children))).2.2.2.2.2.1 _ rfl

/-! ## The key path buffer of `reg_open` -/

/-- A string of non-zero units that is followed by a terminator reads back as
itself. -/
theorem c_str_terminated (s rest : List WCHAR) (h : ∀ c ∈ s, c ≠ 0) :
    c_str (s ++ 0 :: rest) = s := by
  unfold c_str
  induction s with
  | nil => simp
  | cons c t ih =>
    have hc : c ≠ 0 := h c (List.mem_cons_self c t)
    have := ih (fun x hx => h x (List.mem_cons_of_mem c hx))
    simpa [List.takeWhile, hc] using this

/-- Appending a string of non-zero units to the string at the start of a
buffer of `m` code units that has room after the terminator: the string and
the new terminator are written inside the buffer and the string before stays. -/
theorem RtlStringCbCatW_append (cur junk src : List WCHAR) (m : Nat)
    (hcur : ∀ c ∈ cur, c ≠ 0) (hsrc : ∀ c ∈ src, c ≠ 0)
    (hlen : cur.length + 1 + junk.length = m)
    (hroom : src.length ≤ junk.length) (hmax : m ≤ NTSTRSAFE_MAX_CCH) :
    RtlStringCbCatW (cur ++ 0 :: junk) 0 (m * sizeof_WCHAR) src
      = (cur ++ src) ++ 0 :: junk.drop src.length := by
  have hdiv : m * sizeof_WCHAR / sizeof_WCHAR = m := by
    simp [sizeof_WCHAR]
  have hbl : (cur ++ 0 :: junk).length = m := by
    simp only [List.length_append, List.length_cons]
    omega
  have hdest : ((cur ++ 0 :: junk).drop 0).take m = cur ++ 0 :: junk := by
    rw [List.drop_zero]
    apply List.take_of_length_le
    omega
  have hwl : wcslen (cur ++ 0 :: junk) = cur.length :=
    wcslen_terminated cur junk hcur
  have hc : c_str src = src := c_str_of_nonzero src hsrc
  unfold RtlStringCbCatW
  simp only [hdiv, hdest, hwl, hc, hbl]
  rw [if_neg (by omega)]
  have htake : src.take (m - cur.length - 1) = src := by
    apply List.take_of_length_le
    omega
  simp only [htake, Nat.zero_add]
  have h1 : (cur ++ 0 :: junk).take cur.length = cur := by simp
  have h2 : (cur ++ 0 :: junk).drop (cur.length + src.length + 1)
      = junk.drop src.length := by
    rw [Nat.add_assoc, List.drop_append]
    simp
  rw [h1, h2]
  simp

/-- The copy loop of `reg_open` over a buffer of `m` code units that holds the
path so far and its terminator, when the components to come fit: the buffer
ends up holding the key path and its terminator, and keeps its length. -/
theorem reg_open_copy_path (parts : List (List WCHAR)) :
    ∀ (cur junk : List WCHAR) (m : Nat),
      (∀ p ∈ parts, ∀ c ∈ p, c ≠ 0) → (∀ c ∈ cur, c ≠ 0) →
      cur.length + 1 + junk.length = m →
      (if cur = [] then 0 else cur.length + 1) +
        (parts.map (fun p => p.length + 1)).sum ≤ m →
      m ≤ NTSTRSAFE_MAX_CCH →
      ∃ junk1, reg_open_copy (m * sizeof_WCHAR) parts (cur ++ 0 :: junk) =
          key_path parts cur ++ 0 :: junk1 ∧
        (key_path parts cur).length + 1 + junk1.length = m ∧
        ∀ c ∈ key_path parts cur, c ≠ 0 := by
  induction parts with
  | nil =>
    intro cur junk m _ hcur hlen _ _
    exact ⟨junk, rfl, hlen, hcur⟩
  | cons p rest ih =>
    intro cur junk m hwf hcur hlen hroom hmax
    have hp : ∀ c ∈ p, c ≠ 0 := hwf p (List.mem_cons_self p rest)
    have hrest : ∀ x ∈ rest, ∀ c ∈ x, c ≠ 0 :=
      fun x hx => hwf x (List.mem_cons_of_mem p hx)
    simp only [List.map_cons, List.sum_cons] at hroom
    cases cur with
    | nil =>
      simp only [List.length_nil, if_true] at hroom hlen
      have hcat := RtlStringCbCatW_append [] junk p m (by simp) hp
        (by simpa using hlen) (by omega) hmax
      simp only [List.nil_append] at hcat
      have hnext := ih p (junk.drop p.length) m hrest hp
        (by simp only [List.length_drop]; omega)
        (by split_ifs <;> omega) hmax
      simp only [reg_open_copy, List.nil_append, List.headD_cons, ne_eq,
        not_true_eq_false, if_false, hcat, key_path, if_true]
      exact hnext
    | cons c0 cur0 =>
      have hc0 : c0 ≠ 0 := hcur c0 (List.mem_cons_self c0 cur0)
      simp only [List.length_cons, reduceCtorEq, if_false] at hroom hlen
      have hsep := RtlStringCbCatW_append (c0 :: cur0) junk [BACKSLASH] m hcur
        (by simp [BACKSLASH])
        (by simpa using hlen) (by simp only [List.length_singleton]; omega) hmax
      have hcur1 : ∀ c ∈ c0 :: cur0 ++ [BACKSLASH], c ≠ 0 := by
        intro c hc
        simp only [List.mem_append, List.mem_singleton] at hc
        rcases hc with hc | hc
        · exact hcur c hc
        · rw [hc]; decide
      have hcat := RtlStringCbCatW_append (c0 :: cur0 ++ [BACKSLASH])
        (junk.drop 1) p m hcur1 hp
        (by simp only [List.length_append, List.length_cons,
              List.length_singleton, List.length_nil, List.length_drop]; omega)
        (by simp only [List.length_drop]; omega) hmax
      have hcur2 : ∀ c ∈ c0 :: cur0 ++ [BACKSLASH] ++ p, c ≠ 0 := by
        intro c hc
        rw [List.mem_append] at hc
        rcases hc with hc | hc
        · exact hcur1 c hc
        · exact hp c hc
      have hnext := ih (c0 :: cur0 ++ [BACKSLASH] ++ p)
        ((junk.drop 1).drop p.length) m hrest hcur2
        (by simp only [List.length_append, List.length_cons,
              List.length_singleton, List.length_nil, List.length_drop]; omega)
        (by
          simp only [List.length_append, List.length_cons,
            List.length_singleton, List.length_nil]
          split_ifs <;> omega) hmax
      simp only [List.length_singleton] at hsep
      simp only [reg_open_copy, List.cons_append, List.headD_cons, ne_eq, hc0,
        not_false_eq_true, if_true, key_path, reduceCtorEq, if_false]
      simp only [List.cons_append] at hsep hcat hnext
      rw [hsep, hcat]
      exact hnext

/-- The buffer length `reg_open` computes: the sum of length plus one over the
components, in code units. -/
theorem reg_open_len_eq (parts : List (List WCHAR))
    (hwf : ∀ p ∈ parts, ∀ c ∈ p, c ≠ 0) :
    reg_open_len parts =
      (parts.map (fun p => p.length + 1)).sum * sizeof_WCHAR := by
  induction parts with
  | nil => rfl
  | cons p rest ih =>
    have hp : wcslen p = p.length := by
      unfold wcslen
      rw [c_str_of_nonzero p (hwf p (List.mem_cons_self p rest))]
    have hrest := ih (fun x hx => hwf x (List.mem_cons_of_mem p hx))
    simp only [reg_open_len, hp, hrest, List.map_cons, List.sum_cons,
      sizeof_WCHAR]
    omega

/-- The fresh block after `key_name[0] = 0`. -/
theorem fresh_block_set (garbage : Nat → WCHAR) (k : Nat) :
    ((List.range (k + 1)).map garbage).set 0 0 =
      0 :: ((List.range k).map Nat.succ).map garbage := by
  rw [List.range_succ_eq_map]
  rfl

/-- For every non-empty list of components without zero units within the
limit of the string library, `reg_open` returns once its allocation succeeds,
the name it opens is the whole key path, and the path with its terminator
fits the computed buffer length. -/
theorem reg_open_names_the_path {W : Type} (K : Kernel W)
    (key_name_parts : List (List WCHAR)) (garbage : Nat → WCHAR) (s : Sys W)
    (hne : key_name_parts ≠ [])
    (hwf : ∀ p ∈ key_name_parts, ∀ c ∈ p, c ≠ 0)
    (hmax : (key_name_parts.map (fun p => p.length + 1)).sum
      ≤ NTSTRSAFE_MAX_CCH)
    (halloc : (K.ExAllocatePoolWithTag s.world
      (reg_open_len key_name_parts)).1 = true) :
    reg_open K key_name_parts garbage s =
      Except.ok
        ⟨(K.ZwOpenKey (K.ExAllocatePoolWithTag s.world
            (reg_open_len key_name_parts)).2 (key_path key_name_parts [])).1,
          (K.ZwOpenKey (K.ExAllocatePoolWithTag s.world
            (reg_open_len key_name_parts)).2 (key_path key_name_parts [])).2.1,
          ExFreePool
            ⟨(K.ZwOpenKey (K.ExAllocatePoolWithTag s.world
              (reg_open_len key_name_parts)).2
              (key_path key_name_parts [])).2.2,
              s.trace ++ [PoolEvent.alloc (s.trace.length + 1)
                (reg_open_len key_name_parts)]⟩
            (s.trace.length + 1)⟩ ∧
    ((key_path key_name_parts []).length + 1) * sizeof_WCHAR
      ≤ reg_open_len key_name_parts := by
  have hlen := reg_open_len_eq key_name_parts hwf
  obtain ⟨k, hk⟩ : ∃ k, (key_name_parts.map (fun p => p.length + 1)).sum
      = k + 1 := by
    cases key_name_parts with
    | nil => exact absurd rfl hne
    | cons p rest =>
      exact ⟨p.length + (rest.map (fun p => p.length + 1)).sum, by
        simp only [List.map_cons, List.sum_cons]; omega⟩
  obtain ⟨junk1, hcopy, hlen1, hnz⟩ := reg_open_copy_path key_name_parts []
    (((List.range k).map Nat.succ).map garbage) (k + 1) hwf (by simp)
    (by simp [Nat.add_comm]) (by simp only [if_true]; omega) (by omega)
  have hdiv : (k + 1) * sizeof_WCHAR / sizeof_WCHAR = k + 1 := by
    simp [sizeof_WCHAR]
  have hsmall : ¬ (k + 1) * sizeof_WCHAR < sizeof_WCHAR := by
    simp only [sizeof_WCHAR]
    omega
  have hwl : wcslen (key_path key_name_parts [] ++ 0 :: junk1)
      = (key_path key_name_parts []).length :=
    wcslen_terminated _ junk1 hnz
  have hcs : c_str (key_path key_name_parts [] ++ 0 :: junk1)
      = key_path key_name_parts [] :=
    c_str_terminated _ junk1 hnz
  have hfits : ¬ (key_path key_name_parts [] ++ 0 :: junk1).length
      ≤ (key_path key_name_parts []).length := by
    simp only [List.length_append, List.length_cons]
    omega
  constructor
  · unfold reg_open allocate
    simp only [halloc, if_true]
    simp only [hlen, hk, hdiv, hsmall, if_false, fresh_block_set]
    simp only [List.nil_append] at hcopy
    simp only [hcopy, hwl, hcs, hfits, if_false]
  · rw [hlen, hk]
    have : (key_path key_name_parts []).length + 1 ≤ k + 1 := by omega
    exact Nat.mul_le_mul_right _ this

/-- C19, at the failing input: `reg_open` with the empty list of components
computes the buffer length 0, the pool grants the zero-byte block, and the
initial terminator `key_name[0] = 0` is written outside it, whatever the
block holds. -/
theorem C19_reg_open_empty_list_writes_outside_buffer :
    reg_open_len [] = 0 ∧
    (allocate (logging_kernel Arch.amd64 1 [] STATUS_SUCCESS) (boot no_calls)
      (reg_open_len [])).1 = some 1 ∧
    fault_of (reg_open (logging_kernel Arch.amd64 1 [] STATUS_SUCCESS) []
      (fun _ => 0) (boot no_calls)) = some Fault.out_of_bounds ∧
    fault_of (reg_open (logging_kernel Arch.x86 1 [] STATUS_SUCCESS) []
      (fun _ => 65535) (boot no_calls)) = some Fault.out_of_bounds := by
  refine ⟨rfl, rfl, rfl, rfl⟩

end Sanbootconf
